import Mathlib

/-!
A verification model of `commit.py`, the "Design Code" daily design-token
commit script.  The script reads a commit count from the operator, loops
that many times — picking a random (category, message) pair, mutating one
JSON token file, appending a changelog line, staging and committing — and
finally pushes once.

The embedding below follows the source closely:

* the process-wide `random` generator is an infinite stream of naturals,
  one element consumed per primitive draw;
* JSON documents are the inductive `Json` (strings, integers, objects);
  a file on disk is `FileData`: absent, raw non-JSON text, or a document
  (`json.dump` output is a serialized document by construction);
* Python exceptions that the script can raise are the `Fault` type;
  fallible steps return `Except Fault`;
* the external `git` tool is an environment function from invocation
  index to (exit code, stderr text);
* the whole session (`runMain`) produces a `World`: file system,
  changelog, event trace, git invocation log and printed lines.
-/

/-- The process-wide pseudo-random generator (`random` module state),
modelled as an infinite stream of naturals with a cursor; each primitive
draw consumes one stream element. -/
structure RandState where
  stream : Nat → Nat
  idx : Nat

def RandState.peek (r : RandState) : Nat := r.stream r.idx

def RandState.next (r : RandState) : RandState := ⟨r.stream, r.idx + 1⟩

/-- A random source given by a finite list of draws (0 afterwards). -/
def streamOf (l : List Nat) : RandState := ⟨fun i => l.getD i 0, 0⟩

/-- Python exceptions reachable in `commit.py`:
`ioError` = `FileNotFoundError`/`OSError` on `open`,
`formatError` = `json.JSONDecodeError` on invalid JSON text,
`attributeError` = `.keys()` on a non-mapping,
`typeError` = item assignment / subscript on a non-mapping,
`indexError` = `random.choice` on an empty sequence,
`keyError` = mapping lookup miss, `eofError` = `input()` at end of stdin. -/
inductive Fault where
  | ioError
  | formatError
  | attributeError
  | typeError
  | indexError
  | keyError
  | eofError
  deriving DecidableEq, Repr

/-- JSON documents as loaded by `json.load`: strings, integers and
objects cover every value appearing in the token files and the script. -/
inductive Json where
  | str : String → Json
  | int : Int → Json
  | obj : List (String × Json) → Json

/-- `true` for non-object values (the leaves of a document). -/
def scalarB : Json → Bool
  | Json.obj _ => false
  | _ => true

/-- Python `dict` lookup on an association list (first match). -/
def pyGet {α : Type} : List (String × α) → String → Option α
  | [], _ => none
  | (k, v) :: rest, key => if k = key then some v else pyGet rest key

/-- Python `dict` item assignment `d[key] = v`: replace the (unique)
binding of `key`, or append a new binding when absent. -/
def dictSet {α : Type} : List (String × α) → String → α → List (String × α)
  | [], key, v => [(key, v)]
  | (k, w) :: rest, key, v =>
      if k = key then (key, v) :: rest else (k, w) :: dictSet rest key v

/-- `random.choice(l)`: uniform index into `l`, `IndexError` when empty. -/
def pyChoice {α : Type} (l : List α) (r : RandState) :
    Except Fault (α × RandState) :=
  match l with
  | [] => Except.error Fault.indexError
  | a :: t =>
      Except.ok ((a :: t).get ⟨r.peek % (t.length + 1),
        Nat.mod_lt _ t.length.succ_pos⟩, r.next)

/-- `random.randint(a, b)` for `a ≤ b`: uniform integer in `[a, b]`. -/
def pyRandint (a b : Nat) (r : RandState) : Nat × RandState :=
  (a + r.peek % (b + 1 - a), r.next)

mutual

/-- The scalar leaves of a document, as (path, value) pairs. -/
def leaves : Json → List (List String × Json)
  | Json.obj m => leavesList m
  | j => [([], j)]

/-- Leaves contributed by the bindings of an object. -/
def leavesList : List (String × Json) → List (List String × Json)
  | [] => []
  | (k, v) :: rest =>
      (leaves v).map (fun pw => (k :: pw.1, pw.2)) ++ leavesList rest

end

/-- The claim phrase "a leaf value is altered relative to the prior
version": some leaf path carries different values in `old` and `new`. -/
def AlteredOne (old new : Json) : Prop :=
  ∃ pw ∈ leaves old, ∃ pw2 ∈ leaves new, pw.1 = pw2.1 ∧ pw.2 ≠ pw2.2

/-- At most one leaf position differs: away from one distinguished path
`p`, the two documents have exactly the same (path, value) leaves. -/
def AtMostOneLeafDiff (old new : Json) : Prop :=
  ∃ p : List String, ∀ (q : List String) (x : Json), q ≠ p →
    ((q, x) ∈ leaves old ↔ (q, x) ∈ leaves new)

/-- The shape `json.load` produces for colors/typography/components
files: a mapping (unique keys) whose values are scalars or nested
mappings (unique keys) of scalars. -/
def TokenShape (d : Json) : Prop :=
  ∃ m, d = Json.obj m ∧ (m.map Prod.fst).Nodup ∧
    ∀ kv ∈ m, scalarB kv.2 = true ∨
      ∃ sub, kv.2 = Json.obj sub ∧ (sub.map Prod.fst).Nodup ∧
        ∀ sw ∈ sub, scalarB sw.2 = true

/-- The shape of the spacing file: a flat mapping of scalars. -/
def FlatShape (d : Json) : Prop :=
  ∃ m, d = Json.obj m ∧ (m.map Prod.fst).Nodup ∧
    ∀ kv ∈ m, scalarB kv.2 = true

/-- `COMMIT_MESSAGES` from the source, as an ordered association list
(Python dicts preserve insertion order). -/
def COMMIT_MESSAGES : List (String × List String) :=
  [("color",
    ["color change", "primary color update", "secondary palette refinement",
     "accent color adjustment", "color contrast fix", "dark mode color tweak",
     "color palette expansion", "brand color alignment", "surface color update",
     "semantic color token fix"]),
   ("brand",
    ["brand token change", "brand font update", "brand spacing alignment",
     "brand asset refresh", "brand guideline sync"]),
   ("typography",
    ["typography scale update", "font weight adjustment", "line height refinement",
     "heading hierarchy fix", "body text improvement", "font family swap",
     "letter spacing tweak"]),
   ("spacing",
    ["spacing token update", "padding consistency fix", "margin alignment",
     "grid gap adjustment", "layout spacing refinement", "section spacing update"]),
   ("components",
    ["button style update", "input field refinement", "card component update",
     "modal design update", "tooltip design tweak", "navigation styling fix",
     "dropdown menu update", "checkbox style refresh", "tab component refinement",
     "badge design update"]),
   ("ui_fixes",
    ["UI fixes", "hover state fix", "focus ring update", "active state refinement",
     "disabled state styling", "responsive layout tweak", "border radius update",
     "shadow refinement", "z-index adjustment", "overflow fix",
     "alignment correction", "visual regression fix"]),
   ("motion",
    ["animation duration update", "transition easing change",
     "micro-interaction refinement", "loading animation tweak",
     "scroll animation fix"]),
   ("accessibility",
    ["accessibility contrast fix", "focus indicator update",
     "screen reader label add", "aria attribute update", "keyboard navigation fix"])]

/-- `list(COMMIT_MESSAGES.keys())`. -/
def catKeys : List String := COMMIT_MESSAGES.map Prod.fst

/-- `COMMIT_MESSAGES[category]` (empty default never used: every key of
the catalog maps to a non-empty list). -/
def msgsFor (c : String) : List String := (pyGet COMMIT_MESSAGES c).getD []

/-- `ALL_MESSAGES`: the flattened message list. -/
def ALL_MESSAGES : List String := COMMIT_MESSAGES.flatMap Prod.snd

/-- `_pick_commit()`: a uniformly random category, then a uniformly
random message of that category.  Both lists are non-empty so the
`getD` defaults are never used. -/
def pickCommit (r : RandState) : (String × String) × RandState :=
  let c := catKeys.getD (r.peek % catKeys.length) ""
  let ms := msgsFor c
  ((c, ms.getD (r.next.peek % ms.length) ""), r.next.next)

/-- The `while message in used_messages and attempts < 20` retry loop of
`main`, with fuel `k` = remaining allowed attempts.  Returns the accepted
(category, message), the number of redraws performed (the final value of
`attempts`), the list of redrawn messages in order, and the generator. -/
def retryAux (used : List String) :
    Nat → (String × String) → RandState →
    (String × String) × Nat × List String × RandState
  | 0, cm, r => (cm, 0, [], r)
  | k + 1, cm, r =>
      if cm.2 ∈ used then
        let p := pickCommit r
        let res := retryAux used k p.1 p.2
        (res.1, res.2.1 + 1, p.1.2 :: res.2.2.1, res.2.2.2)
      else (cm, 0, [], r)

/-- The four file-modification helpers, as dispatch targets. -/
inductive MutKind where
  | colors
  | typography
  | spacing
  | components
  deriving DecidableEq

/-- The `MODIFIERS` category-to-mutator dictionary from the source. -/
def MODIFIERS : List (String × MutKind) :=
  [("color", MutKind.colors), ("brand", MutKind.colors),
   ("typography", MutKind.typography), ("spacing", MutKind.spacing),
   ("components", MutKind.components), ("ui_fixes", MutKind.components),
   ("motion", MutKind.components), ("accessibility", MutKind.components)]

/-- `MODIFIERS.get(category, _modify_components)`. -/
def modifierFor (c : String) : MutKind :=
  (pyGet MODIFIERS c).getD MutKind.components

/-- One lowercase hex digit. -/
def hexDigitC (n : Nat) : Char :=
  if n < 10 then Char.ofNat (48 + n) else Char.ofNat (87 + n)

/-- `"%06x"` formatting of a number below `16^6`. -/
def hex6 (n : Nat) : String :=
  String.mk [hexDigitC (n / 1048576 % 16), hexDigitC (n / 65536 % 16),
    hexDigitC (n / 4096 % 16), hexDigitC (n / 256 % 16),
    hexDigitC (n / 16 % 16), hexDigitC (n % 16)]

/-- `f"#{random.randint(0, 0xFFFFFF):06x}"`. -/
def randHex (r : RandState) : String × RandState :=
  ("#" ++ hex6 (r.peek % 16777216), r.next)

/-- `round(random.uniform(0.04, 0.2), 2)` rendered by an f-string,
modelled as a uniformly chosen number of hundredths in `[4, 20]`. -/
def alphaStr (t : Nat) : String :=
  if t % 10 = 0 then "0." ++ toString (t / 10)
  else if t < 10 then "0.0" ++ toString t
  else "0." ++ toString t

/-- The randomized alpha component of the shadow value. -/
def pyUniformAlpha (r : RandState) : String × RandState :=
  (alphaStr (4 + r.peek % 17), r.next)

/-- `f"{x}px {y}px {blur}px rgba(0,0,0,{alpha})"`. -/
def shadowStr (x y blur : Nat) (alpha : String) : String :=
  toString x ++ "px " ++ toString y ++ "px " ++ toString blur ++
    "px rgba(0,0,0," ++ alpha ++ ")"

/-- Python `needle in hay` on strings (non-empty needle). -/
def pyContains (hay needle : String) : Bool :=
  (hay.splitOn needle).length != 1

/-- `_modify_colors` on the loaded document: three hex shades are drawn
first, then a top-level key; a nested mapping gets one sub-key recolored,
any other value is replaced by a shade. -/
def modify_colors (d : Json) (r0 : RandState) :
    Except Fault (Json × RandState) :=
  let h1 := randHex r0
  let h2 := randHex h1.2
  let h3 := randHex h2.2
  let shades : List String := [h1.1, h2.1, h3.1]
  let r1 := h3.2
  match d with
  | Json.obj m =>
    match pyChoice (m.map Prod.fst) r1 with
    | Except.error e => Except.error e
    | Except.ok (key, r2) =>
      match pyGet m key with
      | some (Json.obj sub) =>
        match pyChoice (sub.map Prod.fst) r2 with
        | Except.error e => Except.error e
        | Except.ok (s, r3) =>
          match pyChoice shades r3 with
          | Except.error e => Except.error e
          | Except.ok (c, r4) =>
              Except.ok (Json.obj (dictSet m key
                (Json.obj (dictSet sub s (Json.str c)))), r4)
      | some _ =>
        match pyChoice shades r2 with
        | Except.error e => Except.error e
        | Except.ok (c, r3) =>
            Except.ok (Json.obj (dictSet m key (Json.str c)), r3)
      | none => Except.error Fault.keyError
  | _ => Except.error Fault.attributeError

/-- The fixed value domains of `_modify_typography`. -/
def fontSizes : List String :=
  ["0.75rem", "0.875rem", "1rem", "1.125rem", "1.25rem", "1.5rem",
   "2rem", "2.5rem", "3rem"]

def fontWeights : List Int := [300, 400, 500, 600, 700]

def lineHeights : List String := ["1.2", "1.4", "1.5", "1.6", "1.75"]

/-- `_modify_typography` on the loaded document: a top-level key, one of
the three property names, a new value of the right domain, then
`data[key][prop] = value` — a `TypeError` when `data[key]` is not a
mapping. -/
def modify_typography (d : Json) (r0 : RandState) :
    Except Fault (Json × RandState) :=
  match d with
  | Json.obj m =>
    match pyChoice (m.map Prod.fst) r0 with
    | Except.error e => Except.error e
    | Except.ok (key, r1) =>
      match pyChoice ["fontSize", "fontWeight", "lineHeight"] r1 with
      | Except.error e => Except.error e
      | Except.ok (prop, r2) =>
        let vr : Except Fault (Json × RandState) :=
          if prop = "fontSize" then
            (pyChoice fontSizes r2).map (fun p => (Json.str p.1, p.2))
          else if prop = "fontWeight" then
            (pyChoice fontWeights r2).map (fun p => (Json.int p.1, p.2))
          else
            (pyChoice lineHeights r2).map (fun p => (Json.str p.1, p.2))
        match vr with
        | Except.error e => Except.error e
        | Except.ok (v, r3) =>
          match pyGet m key with
          | some (Json.obj sub) =>
              Except.ok (Json.obj (dictSet m key
                (Json.obj (dictSet sub prop v))), r3)
          | some _ => Except.error Fault.typeError
          | none => Except.error Fault.keyError
  | _ => Except.error Fault.attributeError

/-- The fixed pixel bases of `_modify_spacing`. -/
def pxBases : List Nat := [2, 4, 6, 8, 10, 12, 16, 20, 24, 32, 40, 48, 64]

/-- `_modify_spacing`: a top-level key and a pixel base; the key's value
is replaced by `f"{base}px"`. -/
def modify_spacing (d : Json) (r0 : RandState) :
    Except Fault (Json × RandState) :=
  match d with
  | Json.obj m =>
    match pyChoice (m.map Prod.fst) r0 with
    | Except.error e => Except.error e
    | Except.ok (key, r1) =>
      match pyChoice pxBases r1 with
      | Except.error e => Except.error e
      | Except.ok (base, r2) =>
          Except.ok (Json.obj (dictSet m key
            (Json.str (toString base ++ "px"))), r2)
  | _ => Except.error Fault.attributeError

/-- `_modify_components`: a component key, then a property of its
(mapping) value — an `AttributeError` when it is not a mapping — then a
new string value dispatched on substrings of the property name. -/
def modify_components (d : Json) (r0 : RandState) :
    Except Fault (Json × RandState) :=
  match d with
  | Json.obj m =>
    match pyChoice (m.map Prod.fst) r0 with
    | Except.error e => Except.error e
    | Except.ok (component, r1) =>
      match pyGet m component with
      | some (Json.obj sub) =>
        match pyChoice (sub.map Prod.fst) r1 with
        | Except.error e => Except.error e
        | Except.ok (prop, r2) =>
          if pyContains prop.toLower "radius" then
            match pyChoice [2, 4, 6, 8, 12, 16, 24, 9999] r2 with
            | Except.error e => Except.error e
            | Except.ok (v, r3) =>
                Except.ok (Json.obj (dictSet m component (Json.obj
                  (dictSet sub prop (Json.str (toString v ++ "px"))))), r3)
          else if pyContains prop.toLower "shadow" then
            let xr := pyRandint 0 4 r2
            let yr := pyRandint 1 8 xr.2
            let br := pyRandint 4 24 yr.2
            let ar := pyUniformAlpha br.2
            Except.ok (Json.obj (dictSet m component (Json.obj
              (dictSet sub prop
                (Json.str (shadowStr xr.1 yr.1 br.1 ar.1))))), ar.2)
          else if pyContains prop.toLower "padding" ||
              pyContains prop.toLower "gap" then
            match pyChoice [4, 8, 12, 16, 20, 24] r2 with
            | Except.error e => Except.error e
            | Except.ok (v, r3) =>
                Except.ok (Json.obj (dictSet m component (Json.obj
                  (dictSet sub prop (Json.str (toString v ++ "px"))))), r3)
          else
            match pyChoice [1, 2, 4, 8, 12, 16] r2 with
            | Except.error e => Except.error e
            | Except.ok (v, r3) =>
                Except.ok (Json.obj (dictSet m component (Json.obj
                  (dictSet sub prop (Json.str (toString v ++ "px"))))), r3)
      | some _ => Except.error Fault.attributeError
      | none => Except.error Fault.keyError
  | _ => Except.error Fault.attributeError

/-- Content of a file on disk, up to JSON parseability: `raw` holds text
that `json.loads` rejects, `jdoc` holds text that parses to a document
(`json.dump` always writes such text, so rewritten token files are valid
JSON by construction). -/
inductive FileData where
  | absent
  | raw : String → FileData
  | jdoc : Json → FileData

/-- `open(path)` followed by `json.load`: `IOError` when the file is
absent, `JSONDecodeError` when its text is not valid JSON. -/
def jsonLoad : FileData → Except Fault Json
  | FileData.absent => Except.error Fault.ioError
  | FileData.raw _ => Except.error Fault.formatError
  | FileData.jdoc j => Except.ok j

/-- Pointwise file-system update. -/
def fsSet (f : String → FileData) (p : String) (d : FileData) :
    String → FileData :=
  fun q => if q = p then d else f q

/-- The result of one external `git` invocation. -/
structure GitResult where
  returncode : Int
  stderrTxt : String

/-- Observable session events, in occurrence order. -/
inductive Event where
  | pick : String → String → Event
  | mutate : String → Event
  | logLine : String → Event
  | git : List String → Event

/-- The session state: token-file system, changelog file content,
random generator, wall clock (one timestamp string per reading),
the `git` environment (result of the k-th invocation), the event trace
and the lines printed to the operator. -/
structure World where
  fs : String → FileData
  changelog : Option String
  rand : RandState
  clock : Nat → String
  clockIdx : Nat
  script : Nat → GitResult
  gitIdx : Nat
  trace : List Event
  printed : List String

def colorsPath : String := "design_tokens/colors.json"

def typographyPath : String := "design_tokens/typography.json"

def spacingPath : String := "design_tokens/spacing.json"

def componentsPath : String := "design_tokens/components.json"

/-- The fixed file of each modifier. -/
def pathOfKind : MutKind → String
  | MutKind.colors => colorsPath
  | MutKind.typography => typographyPath
  | MutKind.spacing => spacingPath
  | MutKind.components => componentsPath

/-- The document-level edit of each modifier. -/
def mutCore : MutKind → Json → RandState → Except Fault (Json × RandState)
  | MutKind.colors => modify_colors
  | MutKind.typography => modify_typography
  | MutKind.spacing => modify_spacing
  | MutKind.components => modify_components

/-- A `_modify_*` call: load the modifier's fixed file, apply the edit,
dump the new document back to the same path. -/
def runMutatorK (k : MutKind) (w : World) : Except Fault World :=
  (jsonLoad (w.fs (pathOfKind k))).bind (fun d =>
    (mutCore k d w.rand).map (fun p =>
      { w with fs := fsSet w.fs (pathOfKind k) (FileData.jdoc p.1),
               rand := p.2,
               trace := w.trace ++ [Event.mutate (pathOfKind k)] }))

/-- `f"- `{timestamp}` — {message}\n"`, the changelog line format. -/
def logEntry (ts msg : String) : String :=
  "- `" ++ ts ++ "` — " ++ msg ++ "\n"

/-- `_append_log`: append one timestamped line to `../CHANGELOG.md`
(mode `"a"` creates the file when absent and never truncates). -/
def appendLogW (w : World) (msg : String) : World :=
  { w with changelog :=
             some ((w.changelog.getD "") ++ logEntry (w.clock w.clockIdx) msg),
           clockIdx := w.clockIdx + 1,
           trace := w.trace ++ [Event.logLine msg] }

/-- K successive `_append_log` calls. -/
def appendManyW (w : World) (msgs : List String) : World :=
  msgs.foldl appendLogW w

/-- The block of text that K appender calls add, given the clock. -/
def logBlock (clock : Nat → String) : Nat → List String → String
  | _, [] => ""
  | i, msg :: rest => logEntry (clock i) msg ++ logBlock clock (i + 1) rest

/-- Python `str.strip()` (ASCII whitespace). -/
def isSpaceC (c : Char) : Bool :=
  c = ' ' || c = '\t' || c = '\n' || c = '\x0d' || c = '\x0b' || c = '\x0c'

def stripList (l : List Char) : List Char :=
  ((l.dropWhile isSpaceC).reverse.dropWhile isSpaceC).reverse

def stripS (s : String) : String := String.mk (stripList s.data)

/-- `f"  git {' '.join(args)}: {result.stderr.strip()}"`. -/
def gitDiag (args : List String) (err : String) : String :=
  "  git " ++ String.intercalate " " args ++ ": " ++ stripS err

/-- `_git(*args)`: run the next scripted git invocation; when the exit
status is nonzero and stderr is non-empty, print the diagnostic once. -/
def runGit (w : World) (args : List String) : GitResult × World :=
  let res := w.script w.gitIdx
  let w1 := { w with gitIdx := w.gitIdx + 1,
                     trace := w.trace ++ [Event.git args] }
  let w2 :=
    if res.returncode ≠ 0 ∧ res.stderrTxt ≠ "" then
      { w1 with printed := w1.printed ++ [gitDiag args res.stderrTxt] }
    else w1
  (res, w2)

/-- Python `int(s)` for base-10 literals: optional surrounding
whitespace, optional sign, digits with single underscores between
digits. -/
def digitsCore : List Char → Nat → Option Nat
  | [], acc => some acc
  | c :: cs, acc =>
      if c.isDigit then digitsCore cs (acc * 10 + (c.toNat - 48))
      else if c = '_' then
        match cs with
        | c2 :: _ => if c2.isDigit then digitsCore cs acc else none
        | [] => none
      else none

def parseDigits : List Char → Option Nat
  | [] => none
  | c :: cs => if c.isDigit then digitsCore (c :: cs) 0 else none

def parsePyInt (s : String) : Option Int :=
  match stripList s.data with
  | '+' :: rest => (parseDigits rest).map (fun n => (n : Int))
  | '-' :: rest => (parseDigits rest).map (fun n => -(n : Int))
  | l => (parseDigits l).map (fun n => (n : Int))

/-- A stdin line the input phase accepts: parses as an integer ≥ 1. -/
def validCount (s : String) : Bool :=
  match parsePyInt s with
  | none => false
  | some v => decide (1 ≤ v)

def promptMsg : String := "  How many commits would you like to make today? "

def enterNumberMsg : String := "  Enter a number, e.g. 3"

def atLeastOneMsg : String := "  Please enter at least 1."

/-- The `while True` input loop of `main`: read lines until one parses
as an integer ≥ 1 (re-prompting otherwise); `EOFError` if stdin ends. -/
def readCount : List String → World → Except Fault (Nat × List String × World)
  | [], _ => Except.error Fault.eofError
  | s :: rest, w =>
    let w0 := { w with printed := w.printed ++ [promptMsg] }
    match parsePyInt s with
    | none => readCount rest { w0 with printed := w0.printed ++ [enterNumberMsg] }
    | some v =>
        if v < 1 then
          readCount rest { w0 with printed := w0.printed ++ [atLeastOneMsg] }
        else Except.ok (v.toNat, rest, w0)

/-- The selection record of one loop iteration: the used-set before the
iteration, the accepted category and message, the number of redraws and
the redrawn messages. -/
structure SelRec where
  usedBefore : List String
  category : String
  message : String
  attempts : Nat
  draws : List String

/-- `f"  [{i}/{num}] ✓ {message}"`. -/
def progressLine (i total : Nat) (msg : String) : String :=
  "  [" ++ toString i ++ "/" ++ toString total ++ "] ✓ " ++ msg

/-- One iteration of the main loop: pick with duplicate-retry, record
the message as used, run the category's mutator, append the changelog
line, stage and commit, report progress. -/
def runIteration (i total : Nat) (w : World) (used : List String) :
    Except Fault (World × List String × SelRec) :=
  let p0 := pickCommit w.rand
  let sel := retryAux used 20 p0.1 p0.2
  let c := sel.1.1
  let m := sel.1.2
  let srec : SelRec := ⟨used, c, m, sel.2.1, sel.2.2.1⟩
  let used2 := used.insert m
  let w0 := { w with rand := sel.2.2.2, trace := w.trace ++ [Event.pick c m] }
  (runMutatorK (modifierFor c) w0).map (fun w1 =>
    let w2 := appendLogW w1 m
    let g1 := runGit w2 ["add", "-A"]
    let g2 := runGit g1.2 ["commit", "-m", m]
    ({ g2.2 with printed := g2.2.printed ++ [progressLine i total m] },
      used2, srec))

/-- The `for i in range(1, num + 1)` loop, with `k` iterations left. -/
def runLoopAux (total : Nat) :
    Nat → World → List String → List SelRec →
    Except Fault (World × List String × List SelRec)
  | 0, w, used, recs => Except.ok (w, used, recs)
  | k + 1, w, used, recs =>
    match runIteration (total - k) total w used with
    | Except.error e => Except.error e
    | Except.ok (w2, used2, srec) => runLoopAux total k w2 used2 (recs ++ [srec])

def bannerLines : List String :=
  ["",
   "  ╔══════════════════════════════════════╗",
   "  ║         🎨  Design Code  🎨          ║",
   "  ║    Daily design-token commit tool     ║",
   "  ╚══════════════════════════════════════╝",
   ""]

def bannerW (w : World) : World :=
  { w with printed := w.printed ++ bannerLines }

def pushingMsg : String := "  Pushing to GitHub …"

def doneMsg (n : Nat) : String :=
  "  Done! " ++ toString n ++ " commit" ++ (if n ≠ 1 then "s" else "") ++
    " pushed. Your graph just got greener 🟩"

def pushFailMsg : String :=
  "  Push failed — check your remote with: git remote -v"

/-- `main()`: banner, input phase, N iterations, one final push, then a
success summary or a push-failure hint; the returned number is the
process exit status (always 0 on normal completion). -/
def runMain (stdinL : List String) (w : World) :
    Except Fault (World × Nat) :=
  (readCount stdinL (bannerW w)).bind (fun t =>
    (runLoopAux t.1 t.1 { t.2.2 with printed := t.2.2.printed ++ [""] }
        [] []).map (fun out =>
      let w2b := { out.1 with printed := out.1.printed ++ ["", pushingMsg] }
      let g := runGit w2b ["push"]
      let w4 :=
        if g.1.returncode = 0 then
          { g.2 with printed := g.2.printed ++ [doneMsg t.1] }
        else
          { g.2 with printed := g.2.printed ++ [pushFailMsg] }
      ({ w4 with printed := w4.printed ++ [""] }, 0)))

/-- The events of one well-formed iteration. -/
def iterEventsOf (sr : SelRec) : List Event :=
  [Event.pick sr.category sr.message,
   Event.mutate (pathOfKind (modifierFor sr.category)),
   Event.logLine sr.message,
   Event.git ["add", "-A"],
   Event.git ["commit", "-m", sr.message]]

/-- Recognizes a `git commit` invocation in the trace. -/
def isCommitEv : Event → Bool
  | Event.git ("commit" :: _) => true
  | _ => false

/-- `true` exactly on `Except.ok`. -/
def exceptOk {α : Type} : Except Fault α → Bool
  | Except.ok _ => true
  | Except.error _ => false

/-- The post-state facts the amended C2 asserts of one mutator run on
`old` at file `path`: no other file or state is touched, the file again
holds a (serialized, hence valid-JSON) document, and at most one leaf of
the document differs from before. -/
def MutOut (w w2 : World) (path : String) (old : Json) : Prop :=
  (∀ q, q ≠ path → w2.fs q = w.fs q) ∧ w2.changelog = w.changelog ∧
    ∃ dnew, w2.fs path = FileData.jdoc dnew ∧ AtMostOneLeafDiff old dnew

/-! ### Concrete instances used to exercise the model -/

def docColors : Json := Json.obj [("primary", Json.str "#111111")]

def docTypo : Json := Json.obj [("body", Json.obj [("fontSize", Json.str "1rem")])]

def docSpace : Json := Json.obj [("sm", Json.str "4px")]

def docComp : Json := Json.obj [("button", Json.obj [("padding", Json.str "8px")])]

/-- A token directory in the expected state. -/
def goodFS : String → FileData := fun p =>
  if p = colorsPath then FileData.jdoc docColors
  else if p = typographyPath then FileData.jdoc docTypo
  else if p = spacingPath then FileData.jdoc docSpace
  else if p = componentsPath then FileData.jdoc docComp
  else FileData.absent

def okScript : Nat → GitResult := fun _ => GitResult.mk 0 ""

def wGood : World :=
  { fs := goodFS, changelog := none, rand := streamOf [],
    clock := fun _ => "2026-01-01 00:00", clockIdx := 0,
    script := okScript, gitIdx := 0, trace := [], printed := [] }

def failScript : Nat → GitResult := fun _ => GitResult.mk 1 "no remote configured"

def wFail : World := { wGood with script := failScript }

/-- Git succeeds for the 2 staged/commit calls of one iteration, then
the push (invocation 2) fails. -/
def pushFailScript : Nat → GitResult :=
  fun k => if k = 2 then GitResult.mk 1 "no remote configured" else GitResult.mk 0 ""

def wPushFail : World := { wGood with script := pushFailScript }

/-- A colors file whose content is valid JSON (the document `3`) but not
a mapping. -/
def wColorsScalarDoc : World :=
  { wGood with fs := fsSet goodFS colorsPath (FileData.jdoc (Json.int 3)) }

/-- A colors file holding text that is not valid JSON. -/
def wColorsRaw : World :=
  { wGood with fs := fsSet goodFS colorsPath (FileData.raw "not json") }

/-- A missing colors file. -/
def wColorsAbsent : World :=
  { wGood with fs := fsSet goodFS colorsPath FileData.absent }

/-! ### Basic lemmas about the embedding -/

theorem leaves_str (s : String) : leaves (Json.str s) = [([], Json.str s)] := by
  simp [leaves]

theorem leaves_int (n : Int) : leaves (Json.int n) = [([], Json.int n)] := by
  simp [leaves]

theorem leaves_obj (m : List (String × Json)) :
    leaves (Json.obj m) = leavesList m := by
  simp [leaves]

theorem leavesList_nil : leavesList [] = [] := by
  simp [leavesList]

theorem leavesList_cons (k : String) (v : Json) (rest : List (String × Json)) :
    leavesList ((k, v) :: rest) =
      (leaves v).map (fun pw => (k :: pw.1, pw.2)) ++ leavesList rest := by
  simp [leavesList]

theorem leaves_of_scalar {j : Json} (h : scalarB j = true) :
    leaves j = [([], j)] := by
  cases j with
  | str s => exact leaves_str s
  | int n => exact leaves_int n
  | obj m => simp [scalarB] at h

theorem mem_leavesList {m : List (String × Json)} {q : List String} {x : Json} :
    (q, x) ∈ leavesList m ↔
      ∃ k p2 v, q = k :: p2 ∧ (k, v) ∈ m ∧ (p2, x) ∈ leaves v := by
  induction m with
  | nil => simp [leavesList_nil]
  | cons kv rest ih =>
      obtain ⟨k, v⟩ := kv
      rw [leavesList_cons]
      simp only [List.mem_append, List.mem_map, ih, List.mem_cons, Prod.mk.injEq]
      constructor
      · rintro (⟨⟨p2, w⟩, hmem, heq1, heq2⟩ | ⟨k2, p2, v2, rfl, hm, hl⟩)
        · exact ⟨k, p2, v, heq1.symm, Or.inl ⟨rfl, rfl⟩, heq2 ▸ hmem⟩
        · exact ⟨k2, p2, v2, rfl, Or.inr hm, hl⟩
      · rintro ⟨k2, p2, v2, rfl, ⟨rfl, rfl⟩ | hm, hl⟩
        · exact Or.inl ⟨(p2, x), hl, rfl, rfl⟩
        · exact Or.inr ⟨k2, p2, v2, rfl, hm, hl⟩

theorem mem_leaves_obj {m : List (String × Json)} {q : List String} {x : Json} :
    (q, x) ∈ leaves (Json.obj m) ↔
      ∃ k p2 v, q = k :: p2 ∧ (k, v) ∈ m ∧ (p2, x) ∈ leaves v := by
  rw [leaves_obj]; exact mem_leavesList

theorem mem_dictSet_ne {α : Type} {m : List (String × α)} {k key : String}
    {v b : α} (hne : k ≠ key) : (k, b) ∈ dictSet m key v ↔ (k, b) ∈ m := by
  induction m with
  | nil => simp [dictSet, Prod.mk.injEq, hne]
  | cons kw rest ih =>
      obtain ⟨k1, w1⟩ := kw
      by_cases h1 : k1 = key
      · subst h1
        simp [dictSet, Prod.mk.injEq, hne]
      · simp [dictSet, h1, Prod.mk.injEq, ih]

theorem dictSet_nil {α : Type} (key : String) (v : α) :
    dictSet [] key v = [(key, v)] := rfl

theorem dictSet_cons {α : Type} (k1 : String) (w1 : α)
    (rest : List (String × α)) (key : String) (v : α) :
    dictSet ((k1, w1) :: rest) key v =
      if k1 = key then (key, v) :: rest
      else (k1, w1) :: dictSet rest key v := rfl

theorem pyGet_nil {α : Type} (key : String) :
    pyGet ([] : List (String × α)) key = none := rfl

theorem pyGet_cons {α : Type} (k1 : String) (w1 : α)
    (rest : List (String × α)) (key : String) :
    pyGet ((k1, w1) :: rest) key =
      if k1 = key then some w1 else pyGet rest key := rfl

theorem mem_dictSet {α : Type} {m : List (String × α)} {k key : String}
    {v b : α} (h : (k, b) ∈ dictSet m key v) :
    (k, b) ∈ m ∨ (k = key ∧ b = v) := by
  induction m with
  | nil =>
      rw [dictSet_nil, List.mem_singleton, Prod.mk.injEq] at h
      exact Or.inr h
  | cons kw rest ih =>
      obtain ⟨k1, w1⟩ := kw
      by_cases h1 : k1 = key
      · rw [dictSet_cons, if_pos h1] at h
        rcases List.mem_cons.mp h with heq | hm
        · rw [Prod.mk.injEq] at heq
          exact Or.inr heq
        · exact Or.inl (List.mem_cons_of_mem _ hm)
      · rw [dictSet_cons, if_neg h1] at h
        rcases List.mem_cons.mp h with heq | hm
        · exact Or.inl (heq ▸ List.mem_cons_self _ _)
        · rcases ih hm with h2 | h2
          · exact Or.inl (List.mem_cons_of_mem _ h2)
          · exact Or.inr h2

theorem mem_dictSet_self {α : Type} {m : List (String × α)} {key : String}
    {v b : α} (hnd : (m.map Prod.fst).Nodup) :
    (key, b) ∈ dictSet m key v ↔ b = v := by
  induction m with
  | nil => rw [dictSet_nil, List.mem_singleton, Prod.mk.injEq]; simp
  | cons kw rest ih =>
      obtain ⟨k1, w1⟩ := kw
      simp only [List.map_cons, List.nodup_cons] at hnd
      by_cases h1 : k1 = key
      · rw [dictSet_cons, if_pos h1]
        constructor
        · intro h
          rcases List.mem_cons.mp h with heq | hm
          · rw [Prod.mk.injEq] at heq
            exact heq.2
          · subst h1
            exact absurd (List.mem_map.mpr ⟨(k1, b), hm, rfl⟩) hnd.1
        · rintro rfl
          exact List.mem_cons_self _ _
      · rw [dictSet_cons, if_neg h1]
        constructor
        · intro h
          rcases List.mem_cons.mp h with heq | hm
          · rw [Prod.mk.injEq] at heq
            exact absurd heq.1.symm h1
          · exact (ih hnd.2).mp hm
        · intro h
          exact List.mem_cons_of_mem _ ((ih hnd.2).mpr h)

theorem pyGet_mem {α : Type} {m : List (String × α)} {k : String} {v : α}
    (h : pyGet m k = some v) : (k, v) ∈ m := by
  induction m with
  | nil => rw [pyGet_nil] at h; exact absurd h (by simp)
  | cons kw rest ih =>
      obtain ⟨k1, w1⟩ := kw
      by_cases h1 : k1 = k
      · rw [pyGet_cons, if_pos h1] at h
        rw [Option.some.injEq] at h
        subst h1
        exact h ▸ List.mem_cons_self _ _
      · rw [pyGet_cons, if_neg h1] at h
        exact List.mem_cons_of_mem _ (ih h)

theorem pyGet_of_mem_nodup {α : Type} {m : List (String × α)} {k : String}
    {v : α} (hnd : (m.map Prod.fst).Nodup) (h : (k, v) ∈ m) :
    pyGet m k = some v := by
  induction m with
  | nil => exact absurd h (by simp)
  | cons kw rest ih =>
      obtain ⟨k1, w1⟩ := kw
      simp only [List.map_cons, List.nodup_cons] at hnd
      rcases List.mem_cons.mp h with heq | hm
      · rw [Prod.mk.injEq] at heq
        obtain ⟨rfl, rfl⟩ := heq
        rw [pyGet_cons, if_pos rfl]
      · have hne : k1 ≠ k := by
          rintro rfl
          exact hnd.1 (List.mem_map.mpr ⟨(k1, v), hm, rfl⟩)
        rw [pyGet_cons, if_neg hne]
        exact ih hnd.2 hm

theorem pyGet_isSome_of_mem_keys {α : Type} {m : List (String × α)}
    {k : String} (h : k ∈ m.map Prod.fst) : ∃ v, pyGet m k = some v := by
  induction m with
  | nil => exact absurd h (by simp)
  | cons kw rest ih =>
      obtain ⟨k1, w1⟩ := kw
      by_cases h1 : k1 = k
      · exact ⟨w1, by rw [pyGet_cons, if_pos h1]⟩
      · simp only [List.map_cons] at h
        rcases List.mem_cons.mp h with heq | hm
        · exact absurd heq.symm h1
        · obtain ⟨v, hv⟩ := ih hm
          exact ⟨v, by rw [pyGet_cons, if_neg h1]; exact hv⟩

theorem pyChoice_ok {α : Type} {l : List α} {r : RandState} {a : α}
    {r2 : RandState} (h : pyChoice l r = Except.ok (a, r2)) :
    a ∈ l ∧ r2 = r.next := by
  cases l with
  | nil => simp [pyChoice] at h
  | cons x t =>
      simp only [pyChoice, Except.ok.injEq, Prod.mk.injEq] at h
      obtain ⟨h1, h2⟩ := h
      exact ⟨h1 ▸ List.get_mem _ _ _, h2.symm⟩

theorem getD_eq_get {α : Type} {l : List α} {n : Nat} (d : α)
    (h : n < l.length) : l.getD n d = l.get ⟨n, h⟩ := by
  rw [List.getD_eq_getElem l d h]
  rfl

theorem getD_mem_of_lt {α : Type} {l : List α} {n : Nat} (d : α)
    (h : n < l.length) : l.getD n d ∈ l := by
  rw [getD_eq_get d h]
  exact List.get_mem _ _ _

theorem appendLogW_changelog (w : World) (m : String) :
    (appendLogW w m).changelog =
      some ((w.changelog.getD "") ++ logEntry (w.clock w.clockIdx) m) := rfl

theorem appendManyW_cons_changelog :
    ∀ (msgs : List String) (w : World) (m : String),
    (appendManyW w (m :: msgs)).changelog =
      some ((w.changelog.getD "") ++ logBlock w.clock w.clockIdx (m :: msgs)) := by
  intro msgs
  induction msgs with
  | nil =>
      intro w m
      show (appendLogW w m).changelog = _
      rw [appendLogW_changelog]
      show some (w.changelog.getD "" ++ logEntry (w.clock w.clockIdx) m) =
        some (w.changelog.getD "" ++ (logEntry (w.clock w.clockIdx) m ++ ""))
      rw [String.append_empty]
  | cons m2 rest ih =>
      intro w m
      show (appendManyW (appendLogW w m) (m2 :: rest)).changelog = _
      rw [ih (appendLogW w m) m2]
      show some ((w.changelog.getD "" ++ logEntry (w.clock w.clockIdx) m) ++
          logBlock w.clock (w.clockIdx + 1) (m2 :: rest)) = _
      rw [String.append_assoc]
      rfl

theorem appendManyW_clockIdx : ∀ (msgs : List String) (w : World),
    (appendManyW w msgs).clockIdx = w.clockIdx + msgs.length := by
  intro msgs
  induction msgs with
  | nil => intro w; rfl
  | cons m rest ih =>
      intro w
      show (appendManyW (appendLogW w m) rest).clockIdx = _
      rw [ih]
      show w.clockIdx + 1 + rest.length = w.clockIdx + (rest.length + 1)
      omega

/-- C3: the Changelog Appender is append-only.  Running it `K = length
(m :: msgs) ≥ 1` times turns a changelog state `w.changelog` (`none` =
file absent) into `some` of the prior text (empty when absent, so the
file is created) followed verbatim — never truncated or rewritten — by
exactly the `K` lines `logBlock`: one line `- `<timestamp>` — <message>`
per call, in call order, with that call's message and wall-clock
reading; the clock advances once per call. -/
theorem c3_changelog_append_only (w : World) (m : String) (msgs : List String) :
    (appendManyW w (m :: msgs)).changelog =
      some ((w.changelog.getD "") ++ logBlock w.clock w.clockIdx (m :: msgs)) ∧
    (appendManyW w (m :: msgs)).clockIdx = w.clockIdx + (m :: msgs).length :=
  ⟨appendManyW_cons_changelog msgs w m, appendManyW_clockIdx (m :: msgs) w⟩

theorem pickCommit_eq (r : RandState) :
    pickCommit r = ((catKeys.getD (r.peek % catKeys.length) "",
      (msgsFor (catKeys.getD (r.peek % catKeys.length) "")).getD
        (r.next.peek %
          (msgsFor (catKeys.getD (r.peek % catKeys.length) "")).length) ""),
      r.next.next) := rfl

/-- C5: `_pick_commit` draws a category uniformly among the catalog's
keys and then a message uniformly among that category's (non-empty)
list; consequently every category and every message of the catalog is
returned for a suitable state of the random source, and every returned
pair consists of a catalog key with one of its own messages. -/
theorem c5_pick_commit_coverage :
    (∀ (c : String) (ms : List String) (m : String),
      (c, ms) ∈ COMMIT_MESSAGES → m ∈ ms →
      ∃ r : RandState, (pickCommit r).1 = (c, m)) ∧
    (∀ r : RandState, (pickCommit r).1.1 ∈ catKeys ∧
      (pickCommit r).1.2 ∈ msgsFor (pickCommit r).1.1) := by
  constructor
  · intro c ms m hc hm
    have hnd : (COMMIT_MESSAGES.map Prod.fst).Nodup := by decide
    have hcK : c ∈ catKeys := List.mem_map.mpr ⟨(c, ms), hc, rfl⟩
    have hiK : catKeys.indexOf c < catKeys.length :=
      List.indexOf_lt_length.mpr hcK
    have hms : msgsFor c = ms := by
      unfold msgsFor
      rw [pyGet_of_mem_nodup hnd hc]
      rfl
    have hmM : ms.indexOf m < ms.length := List.indexOf_lt_length.mpr hm
    refine ⟨streamOf [catKeys.indexOf c, ms.indexOf m], ?_⟩
    rw [pickCommit_eq]
    have hp1 : (streamOf [catKeys.indexOf c, ms.indexOf m]).peek =
      catKeys.indexOf c := rfl
    have hp2 : (streamOf [catKeys.indexOf c, ms.indexOf m]).next.peek =
      ms.indexOf m := rfl
    rw [hp1, hp2, Nat.mod_eq_of_lt hiK, getD_eq_get _ hiK,
      List.indexOf_get hiK, hms, Nat.mod_eq_of_lt hmM, getD_eq_get _ hmM,
      List.indexOf_get hmM]
  · intro r
    have hlen : 0 < catKeys.length := by decide
    have hpos : ∀ c ∈ catKeys, 0 < (msgsFor c).length := by decide
    constructor
    · rw [pickCommit_eq]
      exact getD_mem_of_lt _ (Nat.mod_lt _ hlen)
    · rw [pickCommit_eq]
      exact getD_mem_of_lt _
        (Nat.mod_lt _ (hpos _ (getD_mem_of_lt _ (Nat.mod_lt _ hlen))))

theorem c5_pick_commit_coverage_witness :
    ∃ r : RandState, (pickCommit r).1 = ("color", "color change") :=
  c5_pick_commit_coverage.1 "color" (msgsFor "color") "color change"
    (by decide) (by decide)

theorem retryAux_zero (used : List String) (cm : String × String)
    (r : RandState) : retryAux used 0 cm r = (cm, 0, [], r) := rfl

theorem retryAux_succ (used : List String) (k : Nat) (cm : String × String)
    (r : RandState) :
    retryAux used (k + 1) cm r =
      if cm.2 ∈ used then
        (((retryAux used k (pickCommit r).1 (pickCommit r).2).1,
          (retryAux used k (pickCommit r).1 (pickCommit r).2).2.1 + 1,
          (pickCommit r).1.2 ::
            (retryAux used k (pickCommit r).1 (pickCommit r).2).2.2.1,
          (retryAux used k (pickCommit r).1 (pickCommit r).2).2.2.2))
      else (cm, 0, [], r) := rfl

theorem retryAux_spec (used : List String) :
    ∀ (k : Nat) (cm : String × String) (r : RandState),
      (retryAux used k cm r).1.2 ∈ used →
      (retryAux used k cm r).2.1 = k ∧
      (retryAux used k cm r).2.2.1.length = k ∧
      cm.2 ∈ used ∧
      ∀ d ∈ (retryAux used k cm r).2.2.1, d ∈ used := by
  intro k
  induction k with
  | zero =>
      intro cm r h
      rw [retryAux_zero] at h ⊢
      exact ⟨rfl, rfl, h, fun d hd => absurd hd (by simp)⟩
  | succ k ih =>
      intro cm r h
      by_cases hin : cm.2 ∈ used
      · rw [retryAux_succ, if_pos hin] at h ⊢
        obtain ⟨ha, hl, hcm, hall⟩ := ih (pickCommit r).1 (pickCommit r).2 h
        refine ⟨by rw [ha], by simp [hl], hin, ?_⟩
        intro d hd
        rcases List.mem_cons.mp hd with rfl | hm
        · exact hcm
        · exact hall d hm
      · rw [retryAux_succ, if_neg hin] at h
        exact absurd h hin

theorem map_ok_inv {α β : Type} {x : Except Fault α} {f : α → β} {b : β}
    (h : x.map f = Except.ok b) : ∃ a, x = Except.ok a ∧ b = f a := by
  cases x with
  | error e => exact absurd h (by simp [Except.map])
  | ok a =>
      refine ⟨a, rfl, ?_⟩
      simp only [Except.map, Except.ok.injEq] at h
      exact h.symm

theorem exceptOk_map {α β : Type} (x : Except Fault α) (f : α → β) :
    exceptOk (x.map f) = exceptOk x := by
  cases x <;> rfl

theorem runGit_fst (w : World) (args : List String) :
    (runGit w args).1 = w.script w.gitIdx := rfl

theorem runGit_world (w : World) (args : List String) :
    (runGit w args).2.gitIdx = w.gitIdx + 1 ∧
    (runGit w args).2.trace = w.trace ++ [Event.git args] ∧
    (runGit w args).2.script = w.script ∧
    (runGit w args).2.fs = w.fs ∧
    (runGit w args).2.rand = w.rand ∧
    (runGit w args).2.changelog = w.changelog ∧
    (runGit w args).2.clock = w.clock ∧
    (runGit w args).2.clockIdx = w.clockIdx := by
  simp only [runGit]
  split
  · exact ⟨rfl, rfl, rfl, rfl, rfl, rfl, rfl, rfl⟩
  · exact ⟨rfl, rfl, rfl, rfl, rfl, rfl, rfl, rfl⟩

theorem runGit_printed_fail (w : World) (args : List String)
    (h1 : (w.script w.gitIdx).returncode ≠ 0)
    (h2 : (w.script w.gitIdx).stderrTxt ≠ "") :
    (runGit w args).2.printed =
      w.printed ++ [gitDiag args (w.script w.gitIdx).stderrTxt] := by
  simp only [runGit]
  rw [if_pos ⟨h1, h2⟩]

theorem runGit_printed_ok (w : World) (args : List String)
    (h : (w.script w.gitIdx).returncode = 0 ∨
      (w.script w.gitIdx).stderrTxt = "") :
    (runGit w args).2.printed = w.printed := by
  have hn : ¬((w.script w.gitIdx).returncode ≠ 0 ∧
      (w.script w.gitIdx).stderrTxt ≠ "") := by
    rcases h with h | h
    · intro hc; exact hc.1 h
    · intro hc; exact hc.2 h
  simp only [runGit]
  rw [if_neg hn]

theorem bind_ok {α β : Type} (a : α) (f : α → Except Fault β) :
    (Except.ok a).bind f = f a := rfl

theorem bind_error {α β : Type} (e : Fault) (f : α → Except Fault β) :
    (Except.error e).bind f = Except.error (α := β) e := rfl

theorem exceptOk_runMutatorK (k : MutKind) (w w2 : World)
    (hfs : w.fs = w2.fs) (hr : w.rand = w2.rand) :
    exceptOk (runMutatorK k w) = exceptOk (runMutatorK k w2) := by
  unfold runMutatorK
  rw [hfs, hr]
  cases jsonLoad (w2.fs (pathOfKind k)) with
  | error e => rfl
  | ok d =>
      rw [bind_ok, bind_ok, exceptOk_map, exceptOk_map]

theorem runMutatorK_ok_spec {k : MutKind} {w w1 : World}
    (h : runMutatorK k w = Except.ok w1) :
    w1.trace = w.trace ++ [Event.mutate (pathOfKind k)] ∧
    w1.gitIdx = w.gitIdx ∧ w1.script = w.script ∧ w1.printed = w.printed ∧
    w1.changelog = w.changelog ∧ w1.clock = w.clock ∧
    w1.clockIdx = w.clockIdx ∧
    (∀ q, q ≠ pathOfKind k → w1.fs q = w.fs q) ∧
    ∃ old dnew r2, w.fs (pathOfKind k) = FileData.jdoc old ∧
      mutCore k old w.rand = Except.ok (dnew, r2) ∧
      w1.fs (pathOfKind k) = FileData.jdoc dnew ∧ w1.rand = r2 := by
  unfold runMutatorK at h
  cases hf : w.fs (pathOfKind k) with
  | absent =>
      rw [hf] at h
      exact absurd h (by simp [jsonLoad, bind_error])
  | raw s =>
      rw [hf] at h
      exact absurd h (by simp [jsonLoad, bind_error])
  | jdoc old =>
      rw [hf] at h
      simp only [jsonLoad] at h
      rw [bind_ok] at h
      obtain ⟨p, hmc, hw⟩ := map_ok_inv h
      obtain ⟨dnew, r2⟩ := p
      subst hw
      refine ⟨rfl, rfl, rfl, rfl, rfl, rfl, rfl, ?_, old, dnew, r2,
        rfl, hmc, ?_, rfl⟩
      · intro q hq
        show fsSet w.fs (pathOfKind k) (FileData.jdoc dnew) q = w.fs q
        unfold fsSet
        rw [if_neg hq]
      · show fsSet w.fs (pathOfKind k) (FileData.jdoc dnew)
          (pathOfKind k) = FileData.jdoc dnew
        unfold fsSet
        rw [if_pos rfl]

theorem runIteration_ok_spec {i total : Nat} {w : World} {used : List String}
    {out : World × List String × SelRec} {c m : String} {att : Nat}
    {dr : List String} {r2 : RandState}
    (hsel : retryAux used 20 (pickCommit w.rand).1 (pickCommit w.rand).2 =
      ((c, m), att, dr, r2))
    (h : runIteration i total w used = Except.ok out) :
    out.2.2 = SelRec.mk used c m att dr ∧
    out.2.1 = used.insert m ∧
    out.1.trace = w.trace ++ iterEventsOf out.2.2 ∧
    out.1.gitIdx = w.gitIdx + 2 ∧
    out.1.script = w.script ∧
    (m ∈ used → att = 20 ∧ dr.length = 20 ∧ ∀ d ∈ dr, d ∈ used) := by
  simp only [runIteration] at h
  rw [hsel] at h
  obtain ⟨w1, hmut, hout⟩ := map_ok_inv h
  obtain ⟨htr, hgi, hsc, _, _, _, _, _, _⟩ := runMutatorK_ok_spec hmut
  subst hout
  refine ⟨rfl, rfl, ?_, ?_, ?_, ?_⟩
  · show (runGit (runGit (appendLogW w1 m) ["add", "-A"]).2
      ["commit", "-m", m]).2.trace = w.trace ++ iterEventsOf ⟨used, c, m, att, dr⟩
    rw [(runGit_world _ _).2.1, (runGit_world _ _).2.1]
    show ((w1.trace ++ [Event.logLine m]) ++ [Event.git ["add", "-A"]]) ++
      [Event.git ["commit", "-m", m]] = _
    rw [htr]
    show (((w.trace ++ [Event.pick c m]) ++
      [Event.mutate (pathOfKind (modifierFor c))] ++ [Event.logLine m]) ++
      [Event.git ["add", "-A"]]) ++ [Event.git ["commit", "-m", m]] = _
    simp [iterEventsOf]
  · show (runGit (runGit (appendLogW w1 m) ["add", "-A"]).2
      ["commit", "-m", m]).2.gitIdx = w.gitIdx + 2
    rw [(runGit_world _ _).1, (runGit_world _ _).1]
    show w1.gitIdx + 1 + 1 = w.gitIdx + 2
    rw [hgi]
  · show (runGit (runGit (appendLogW w1 m) ["add", "-A"]).2
      ["commit", "-m", m]).2.script = w.script
    rw [(runGit_world _ _).2.2.1, (runGit_world _ _).2.2.1]
    show w1.script = w.script
    rw [hsc]
  · intro hmem
    have hspec := retryAux_spec used 20 (pickCommit w.rand).1 (pickCommit w.rand).2
    rw [hsel] at hspec
    exact ⟨(hspec hmem).1, (hspec hmem).2.1, (hspec hmem).2.2.2⟩

theorem runLoopAux_zero (total : Nat) (w : World) (used : List String)
    (recs : List SelRec) :
    runLoopAux total 0 w used recs = Except.ok (w, used, recs) := rfl

theorem runLoopAux_succ (total k : Nat) (w : World) (used : List String)
    (recs : List SelRec) :
    runLoopAux total (k + 1) w used recs =
      (match runIteration (total - k) total w used with
       | Except.error e => Except.error e
       | Except.ok (w2, used2, srec) =>
           runLoopAux total k w2 used2 (recs ++ [srec])) := rfl

theorem runLoopAux_ok_spec (total : Nat) :
    ∀ (k : Nat) (w : World) (used : List String) (recs : List SelRec)
      (out : World × List String × List SelRec),
      runLoopAux total k w used recs = Except.ok out →
      ∃ newRecs : List SelRec,
        out.2.2 = recs ++ newRecs ∧ newRecs.length = k ∧
        out.1.trace = w.trace ++ (newRecs.map iterEventsOf).flatten ∧
        out.1.gitIdx = w.gitIdx + 2 * k ∧
        out.1.script = w.script ∧
        (∀ sr ∈ newRecs, sr.message ∈ sr.usedBefore →
          sr.attempts = 20 ∧ sr.draws.length = 20 ∧
          ∀ d ∈ sr.draws, d ∈ sr.usedBefore) := by
  intro k
  induction k with
  | zero =>
      intro w used recs out h
      rw [runLoopAux_zero] at h
      simp only [Except.ok.injEq] at h
      subst h
      exact ⟨[], by simp, rfl, by simp, by simp, rfl, by simp⟩
  | succ k ih =>
      intro w used recs out h
      rw [runLoopAux_succ] at h
      cases hit : runIteration (total - k) total w used with
      | error e => rw [hit] at h; exact absurd h (by simp)
      | ok tr =>
          obtain ⟨w2, used2, srec⟩ := tr
          rw [hit] at h
          obtain ⟨newRecs, hrecs, hlen, htr, hgi, hs, hall⟩ :=
            ih w2 used2 (recs ++ [srec]) out h
          have hiter := runIteration_ok_spec rfl hit
          have hsrec : srec = SelRec.mk used
              (retryAux used 20 (pickCommit w.rand).1 (pickCommit w.rand).2).1.1
              (retryAux used 20 (pickCommit w.rand).1 (pickCommit w.rand).2).1.2
              (retryAux used 20 (pickCommit w.rand).1 (pickCommit w.rand).2).2.1
              (retryAux used 20 (pickCommit w.rand).1 (pickCommit w.rand).2).2.2.1 :=
            hiter.1
          refine ⟨srec :: newRecs, ?_, by simp [hlen], ?_, ?_, ?_, ?_⟩
          · rw [hrecs, List.append_assoc]
            rfl
          · rw [htr, hiter.2.2.1]
            simp [List.append_assoc]
          · rw [hgi, hiter.2.2.2.1]
            omega
          · rw [hs, hiter.2.2.2.2.1]
          · intro sr hsr hrep
            rcases List.mem_cons.mp hsr with rfl | hm
            · have hub : sr.usedBefore = used := by rw [hsrec]
              rw [hub] at hrep ⊢
              have hm2 : sr.message ∈ used := hrep
              rw [hsrec] at hm2
              have h3 := hiter.2.2.2.2.2 hm2
              rw [hsrec]
              exact h3
            · exact hall sr hm hrep

theorem readCount_nil (w : World) :
    readCount [] w = Except.error Fault.eofError := rfl

theorem readCount_cons (s : String) (rest : List String) (w : World) :
    readCount (s :: rest) w =
      (match parsePyInt s with
       | none => readCount rest { w with printed :=
           (w.printed ++ [promptMsg]) ++ [enterNumberMsg] }
       | some v =>
           if v < 1 then
             readCount rest { w with printed :=
               (w.printed ++ [promptMsg]) ++ [atLeastOneMsg] }
           else Except.ok (v.toNat, rest,
             { w with printed := w.printed ++ [promptMsg] })) := rfl

theorem readCount_cons_none {s : String} (rest : List String) (w : World)
    (hp : parsePyInt s = none) :
    readCount (s :: rest) w = readCount rest { w with printed :=
      (w.printed ++ [promptMsg]) ++ [enterNumberMsg] } := by
  rw [readCount_cons, hp]

theorem readCount_cons_low {s : String} {v : Int} (rest : List String)
    (w : World) (hp : parsePyInt s = some v) (hv : v < 1) :
    readCount (s :: rest) w = readCount rest { w with printed :=
      (w.printed ++ [promptMsg]) ++ [atLeastOneMsg] } := by
  rw [readCount_cons, hp]
  exact if_pos hv

theorem readCount_cons_ok {s : String} {v : Int} (rest : List String)
    (w : World) (hp : parsePyInt s = some v) (hv : ¬ v < 1) :
    readCount (s :: rest) w = Except.ok (v.toNat, rest,
      { w with printed := w.printed ++ [promptMsg] }) := by
  rw [readCount_cons, hp]
  exact if_neg hv

theorem readCount_world : ∀ (lines : List String) (w : World) (n : Nat)
    (rest : List String) (w1 : World),
    readCount lines w = Except.ok (n, rest, w1) →
    w1.trace = w.trace ∧ w1.gitIdx = w.gitIdx ∧ w1.script = w.script ∧
    w1.fs = w.fs ∧ w1.rand = w.rand ∧ w1.changelog = w.changelog ∧
    w1.clock = w.clock ∧ w1.clockIdx = w.clockIdx ∧ 1 ≤ n := by
  intro lines
  induction lines with
  | nil =>
      intro w n rest w1 h
      rw [readCount_nil] at h
      exact absurd h (by simp)
  | cons s rest2 ih =>
      intro w n rest w1 h
      cases hp : parsePyInt s with
      | none =>
          rw [readCount_cons_none rest2 w hp] at h
          exact ih { w with printed :=
            (w.printed ++ [promptMsg]) ++ [enterNumberMsg] } n rest w1 h
      | some v =>
          by_cases hv : v < 1
          · rw [readCount_cons_low rest2 w hp hv] at h
            exact ih { w with printed :=
              (w.printed ++ [promptMsg]) ++ [atLeastOneMsg] } n rest w1 h
          · rw [readCount_cons_ok rest2 w hp hv] at h
            simp only [Except.ok.injEq, Prod.mk.injEq] at h
            obtain ⟨h1, _, h3⟩ := h
            subst h3
            refine ⟨rfl, rfl, rfl, rfl, rfl, rfl, rfl, rfl, ?_⟩
            omega

theorem readCount_first_valid :
    ∀ (pre : List String) (s : String) (rest : List String) (w : World)
      (v : Int), (∀ p ∈ pre, validCount p = false) →
      parsePyInt s = some v → 1 ≤ v →
      ∃ w2, readCount (pre ++ s :: rest) w =
        Except.ok (v.toNat, rest, w2) := by
  intro pre
  induction pre with
  | nil =>
      intro s rest w v _ hs hv
      rw [List.nil_append, readCount_cons_ok rest w hs (by omega)]
      exact ⟨_, rfl⟩
  | cons p pre2 ih =>
      intro s rest w v hpre hs hv
      have hvp := hpre p (List.mem_cons_self _ _)
      rw [List.cons_append]
      cases hp : parsePyInt p with
      | none =>
          rw [readCount_cons_none _ w hp]
          exact ih s rest _ v (fun q hq => hpre q (List.mem_cons_of_mem _ hq))
            hs hv
      | some u =>
          have hu : u < 1 := by
            unfold validCount at hvp
            rw [hp] at hvp
            simpa using hvp
          rw [readCount_cons_low _ w hp hu]
          exact ih s rest _ v (fun q hq => hpre q (List.mem_cons_of_mem _ hq))
            hs hv

/-- C4: within one session a message already used earlier is accepted
again only when the 20-bounded retry loop exhausts itself: the initial
draw and all 20 redraws returned already-used messages.  After each
iteration the accepted message is recorded in the used set regardless
of repetition, so over a whole successful loop every repeated
acceptance certifies such a 20-collision run. -/
theorem c4_duplicate_avoidance :
    (∀ (used : List String) (cm : String × String) (r : RandState),
      (retryAux used 20 cm r).1.2 ∈ used →
      (retryAux used 20 cm r).2.1 = 20 ∧
      (retryAux used 20 cm r).2.2.1.length = 20 ∧
      cm.2 ∈ used ∧
      ∀ d ∈ (retryAux used 20 cm r).2.2.1, d ∈ used) ∧
    (∀ (i total : Nat) (w : World) (used : List String)
      (out : World × List String × SelRec),
      runIteration i total w used = Except.ok out →
      out.2.1 = used.insert out.2.2.message ∧ out.2.2.usedBefore = used) ∧
    (∀ (total k : Nat) (w : World) (used : List String)
      (out : World × List String × List SelRec),
      runLoopAux total k w used [] = Except.ok out →
      ∀ sr ∈ out.2.2, sr.message ∈ sr.usedBefore →
        sr.attempts = 20 ∧ sr.draws.length = 20 ∧
        ∀ d ∈ sr.draws, d ∈ sr.usedBefore) := by
  refine ⟨?_, ?_, ?_⟩
  · intro used cm r h
    exact retryAux_spec used 20 cm r h
  · intro i total w used out h
    have hiter := runIteration_ok_spec rfl h
    constructor
    · rw [hiter.1]
      exact hiter.2.1
    · rw [hiter.1]
  · intro total k w used out h sr hsr hrep
    obtain ⟨newRecs, hrecs, _, _, _, _, hall⟩ :=
      runLoopAux_ok_spec total k w used [] out h
    rw [hrecs, List.nil_append] at hsr
    exact hall sr hsr hrep

theorem c4_duplicate_avoidance_witness :
    ((retryAux ["color change"] 20 ("color", "color change")
        (streamOf [])).1.2 ∈ ["color change"] ∧
      (retryAux ["color change"] 20 ("color", "color change")
        (streamOf [])).2.1 = 20) ∧
    (∃ out, runIteration 1 1 wGood [] = Except.ok out ∧
      out.2.1 = List.insert out.2.2.message [] ∧
      out.2.2.usedBefore = []) ∧
    (∃ out, runLoopAux 1 1 wGood [] [] = Except.ok out ∧
      ∀ sr ∈ out.2.2, sr.message ∈ sr.usedBefore → sr.attempts = 20 ∧
        sr.draws.length = 20 ∧ ∀ d ∈ sr.draws, d ∈ sr.usedBefore) := by
  refine ⟨?_, ?_, ?_⟩
  · have hm : (retryAux ["color change"] 20 ("color", "color change")
        (streamOf [])).1.2 ∈ ["color change"] := by decide
    exact ⟨hm, (c4_duplicate_avoidance.1 _ _ _ hm).1⟩
  · refine ⟨_, rfl, ?_, ?_⟩
    · exact (c4_duplicate_avoidance.2.1 1 1 wGood [] _ rfl).1
    · exact (c4_duplicate_avoidance.2.1 1 1 wGood [] _ rfl).2
  · refine ⟨_, rfl, ?_⟩
    exact c4_duplicate_avoidance.2.2 1 1 wGood [] _ rfl

/-- C7: every `_git` invocation consults the external tool exactly once
(one scripted result, one trace event, no retry); when the exit status
is nonzero and stderr is non-empty the diagnostic line is printed
exactly once, otherwise nothing is printed; and the call never aborts
the loop: whether an iteration succeeds is independent of the scripted
git results (a changed git environment cannot change success into
failure). -/
theorem c7_git_driver_reporting :
    (∀ (w : World) (args : List String),
      (runGit w args).1 = w.script w.gitIdx ∧
      (runGit w args).2.gitIdx = w.gitIdx + 1 ∧
      (runGit w args).2.trace = w.trace ++ [Event.git args]) ∧
    (∀ (w : World) (args : List String),
      (w.script w.gitIdx).returncode ≠ 0 →
      (w.script w.gitIdx).stderrTxt ≠ "" →
      (runGit w args).2.printed =
        w.printed ++ [gitDiag args (w.script w.gitIdx).stderrTxt]) ∧
    (∀ (w : World) (args : List String),
      (w.script w.gitIdx).returncode = 0 ∨
        (w.script w.gitIdx).stderrTxt = "" →
      (runGit w args).2.printed = w.printed) ∧
    (∀ (i total : Nat) (w : World) (used : List String)
      (s2 : Nat → GitResult),
      exceptOk (runIteration i total w used) =
        exceptOk (runIteration i total { w with script := s2 } used)) := by
  refine ⟨?_, ?_, ?_, ?_⟩
  · intro w args
    exact ⟨runGit_fst w args, (runGit_world w args).1, (runGit_world w args).2.1⟩
  · exact runGit_printed_fail
  · exact runGit_printed_ok
  · intro i total w used s2
    simp only [runIteration]
    rw [exceptOk_map, exceptOk_map]
    exact exceptOk_runMutatorK _ _ _ rfl rfl

theorem c7_git_driver_reporting_witness :
    ((runGit wFail ["push"]).2.printed =
      wFail.printed ++ [gitDiag ["push"] (wFail.script wFail.gitIdx).stderrTxt]) ∧
    (runGit wGood ["push"]).2.printed = wGood.printed ∧
    exceptOk (runIteration 1 1 wGood []) =
      exceptOk (runIteration 1 1 { wGood with script := failScript } []) :=
  ⟨c7_git_driver_reporting.2.1 wFail ["push"] (by decide) (by decide),
   c7_git_driver_reporting.2.2.1 wGood ["push"] (Or.inl rfl),
   c7_git_driver_reporting.2.2.2 1 1 wGood [] failScript⟩

theorem iterEvents_filter_commit (sr : SelRec) :
    (iterEventsOf sr).filter isCommitEv =
      [Event.git ["commit", "-m", sr.message]] := rfl

theorem flatten_filter_commit (recs : List SelRec) :
    (((recs.map iterEventsOf).flatten).filter isCommitEv).length =
      recs.length := by
  induction recs with
  | nil => rfl
  | cons sr rest ih =>
      show ((iterEventsOf sr ++
        (rest.map iterEventsOf).flatten).filter isCommitEv).length =
        rest.length + 1
      rw [List.filter_append, List.length_append, iterEvents_filter_commit, ih]
      show 1 + rest.length = rest.length + 1
      omega

theorem git_mem_flatten {recs : List SelRec} {args : List String}
    (h : Event.git args ∈ (recs.map iterEventsOf).flatten) :
    args = ["add", "-A"] ∨ ∃ mm, args = ["commit", "-m", mm] := by
  rw [List.mem_flatten] at h
  obtain ⟨l, hl, hmem⟩ := h
  rw [List.mem_map] at hl
  obtain ⟨sr, _, rfl⟩ := hl
  simp only [iterEventsOf, List.mem_cons, List.not_mem_nil, or_false] at hmem
  rcases hmem with h | h | h | h | h
  · exact absurd h (by simp)
  · exact absurd h (by simp)
  · exact absurd h (by simp)
  · refine Or.inl ?_
    injection h
  · refine Or.inr ⟨sr.message, ?_⟩
    injection h

/-- The reporting step after the push keeps the trace of the world the
push produced, whatever the push result was. -/
theorem trace_of_pushFinish (g2 : World) (c : Prop) [Decidable c]
    (s1 s2 : List String) :
    ((if c then { g2 with printed := g2.printed ++ s1 }
      else { g2 with printed := g2.printed ++ s2 }) : World).trace =
      g2.trace := by
  split
  · rfl
  · rfl

theorem printed_of_pushFinish_fail (g2 : World) {c : Prop} [Decidable c]
    (hc : ¬ c) (s1 s2 : List String) :
    ((if c then { g2 with printed := g2.printed ++ s1 }
      else { g2 with printed := g2.printed ++ s2 }) : World).printed =
      g2.printed ++ s2 := by
  rw [if_neg hc]

/-- C1: for every accepted positive commit count `n`, a normally
completing session consists of exactly `n` iterations — each selecting a
(category, message), invoking that category's token mutator on its file,
appending one changelog line, and issuing one stage and one commit git
invocation (`iterEventsOf`) — followed by exactly one final push. -/
theorem c1_session_loop_shape {lines : List String} {w : World} {n : Nat}
    {rest : List String} {w1 wf : World} {code : Nat}
    (hin : readCount lines (bannerW w) = Except.ok (n, rest, w1))
    (hrun : runMain lines w = Except.ok (wf, code)) :
    1 ≤ n ∧
    ∃ recs : List SelRec, recs.length = n ∧
      wf.trace = w.trace ++ (recs.map iterEventsOf).flatten ++
        [Event.git ["push"]] := by
  unfold runMain at hrun
  rw [hin, bind_ok] at hrun
  obtain ⟨out, hloop, hwf⟩ := map_ok_inv hrun
  obtain ⟨recs, hrecs, hlen, htr, hgi, hsc, _⟩ :=
    runLoopAux_ok_spec n n { w1 with printed := w1.printed ++ [""] } [] []
      out hloop
  have hw1 := readCount_world lines (bannerW w) n rest w1 hin
  have hwf1 : wf = _ := congrArg Prod.fst hwf
  have htrace2 : wf.trace = out.1.trace ++ [Event.git ["push"]] := by
    rw [hwf1]
    have hfin := trace_of_pushFinish
      (runGit { out.1 with printed := out.1.printed ++ ["", pushingMsg] }
        ["push"]).2
      ((runGit { out.1 with printed := out.1.printed ++ ["", pushingMsg] }
        ["push"]).1.returncode = 0) [doneMsg n] [pushFailMsg]
    exact hfin.trans ((runGit_world _ _).2.1)
  refine ⟨hw1.2.2.2.2.2.2.2.2, recs, hlen, ?_⟩
  rw [htrace2, htr]
  show (w1.trace ++ (recs.map iterEventsOf).flatten) ++
    [Event.git ["push"]] = _
  rw [hw1.1]
  show ((bannerW w).trace ++ (recs.map iterEventsOf).flatten) ++
    [Event.git ["push"]] = _
  rfl

theorem c1_session_loop_shape_witness :
    ∃ (n : Nat) (rest : List String) (w1 wf : World) (code : Nat),
      readCount ["1"] (bannerW wGood) = Except.ok (n, rest, w1) ∧
      runMain ["1"] wGood = Except.ok (wf, code) ∧
      (1 ≤ n ∧ ∃ recs : List SelRec, recs.length = n ∧
        wf.trace = wGood.trace ++ (recs.map iterEventsOf).flatten ++
          [Event.git ["push"]]) := by
  obtain ⟨n2, rest2, w12, h1⟩ :
      ∃ n2 rest2 w12, readCount ["1"] (bannerW wGood) =
        Except.ok (n2, rest2, w12) := ⟨_, _, _, rfl⟩
  obtain ⟨wf2, code2, h2⟩ :
      ∃ wf2 code2, runMain ["1"] wGood = Except.ok (wf2, code2) :=
    ⟨_, _, rfl⟩
  exact ⟨n2, rest2, w12, wf2, code2, h1, h2, c1_session_loop_shape h1 h2⟩

/-- C9: when the final push exits nonzero the session prints the
remote-configuration hint `pushFailMsg`, leaves the `n` created commits
intact — the trace holds exactly the `n` commit invocations plus
staging and the single push, never a reset/revert/amend — and still
terminates normally with process exit code 0. -/
theorem c9_push_failure_reporting {lines : List String} {w : World} {n : Nat}
    {rest : List String} {w1 wf : World} {code : Nat}
    (hin : readCount lines (bannerW w) = Except.ok (n, rest, w1))
    (hrun : runMain lines w = Except.ok (wf, code))
    (htr0 : w.trace = [])
    (hpushrc : (w.script (w.gitIdx + 2 * n)).returncode ≠ 0) :
    code = 0 ∧
    pushFailMsg ∈ wf.printed ∧
    (wf.trace.filter isCommitEv).length = n ∧
    (∀ args, Event.git args ∈ wf.trace →
      args = ["add", "-A"] ∨ (∃ mm, args = ["commit", "-m", mm]) ∨
        args = ["push"]) := by
  unfold runMain at hrun
  rw [hin, bind_ok] at hrun
  obtain ⟨out, hloop, hwf⟩ := map_ok_inv hrun
  obtain ⟨recs, hrecs, hlen, htr, hgi, hsc, _⟩ :=
    runLoopAux_ok_spec n n { w1 with printed := w1.printed ++ [""] } [] []
      out hloop
  have hw1 := readCount_world lines (bannerW w) n rest w1 hin
  have hG1 : (runGit { out.1 with printed :=
      out.1.printed ++ ["", pushingMsg] } ["push"]).1 =
      w.script (w.gitIdx + 2 * n) := by
    rw [runGit_fst]
    show out.1.script out.1.gitIdx = _
    rw [hsc, hgi]
    show w1.script (w1.gitIdx + 2 * n) = _
    rw [hw1.2.2.1, hw1.2.1]
    rfl
  have hcond : ¬ ((runGit { out.1 with printed :=
      out.1.printed ++ ["", pushingMsg] } ["push"]).1.returncode = 0) := by
    rw [hG1]
    exact hpushrc
  have hwf1 : wf = _ := congrArg Prod.fst hwf
  have hcode : code = 0 := congrArg Prod.snd hwf
  have hp := printed_of_pushFinish_fail
    (runGit { out.1 with printed := out.1.printed ++ ["", pushingMsg] }
      ["push"]).2 hcond [doneMsg n] [pushFailMsg]
  have hprint : wf.printed = ((runGit { out.1 with printed :=
      out.1.printed ++ ["", pushingMsg] } ["push"]).2.printed ++
      [pushFailMsg]) ++ [""] :=
    (congrArg World.printed hwf1).trans
      (congrArg (fun l => l ++ ([""] : List String)) hp)
  have htrace2 : wf.trace = out.1.trace ++ [Event.git ["push"]] := by
    rw [hwf1]
    have hfin := trace_of_pushFinish
      (runGit { out.1 with printed := out.1.printed ++ ["", pushingMsg] }
        ["push"]).2
      ((runGit { out.1 with printed := out.1.printed ++ ["", pushingMsg] }
        ["push"]).1.returncode = 0) [doneMsg n] [pushFailMsg]
    exact hfin.trans ((runGit_world _ _).2.1)
  have htrace3 : wf.trace =
      (recs.map iterEventsOf).flatten ++ [Event.git ["push"]] := by
    rw [htrace2, htr]
    show (w1.trace ++ (recs.map iterEventsOf).flatten) ++
      [Event.git ["push"]] = _
    rw [hw1.1]
    show (w.trace ++ (recs.map iterEventsOf).flatten) ++
      [Event.git ["push"]] = _
    rw [htr0]
    simp
  refine ⟨hcode, ?_, ?_, ?_⟩
  · rw [hprint]
    simp
  · rw [htrace3, List.filter_append, List.length_append,
      flatten_filter_commit, hlen]
    show n + ([Event.git ["push"]].filter isCommitEv).length = n
    rfl
  · intro args hmem
    rw [htrace3] at hmem
    rcases List.mem_append.mp hmem with h | h
    · rcases git_mem_flatten h with h2 | ⟨mm, h2⟩
      · exact Or.inl h2
      · exact Or.inr (Or.inl ⟨mm, h2⟩)
    · refine Or.inr (Or.inr ?_)
      have h2 := List.mem_singleton.mp h
      injection h2

theorem c9_push_failure_reporting_witness :
    ∃ (rest : List String) (w1 wf : World) (code : Nat),
      readCount ["1"] (bannerW wPushFail) = Except.ok (1, rest, w1) ∧
      runMain ["1"] wPushFail = Except.ok (wf, code) ∧
      code = 0 ∧ pushFailMsg ∈ wf.printed ∧
      (wf.trace.filter isCommitEv).length = 1 := by
  have h1 : readCount ["1"] (bannerW wPushFail) =
      Except.ok (1, [], { (bannerW wPushFail) with printed :=
        (bannerW wPushFail).printed ++ [promptMsg] }) := rfl
  obtain ⟨wf2, code2, h2⟩ :
      ∃ a b, runMain ["1"] wPushFail = Except.ok (a, b) := ⟨_, _, rfl⟩
  have h3 := c9_push_failure_reporting h1 h2 rfl (by decide)
  exact ⟨[], _, wf2, code2, h1, h2, h3.1, h3.2.1, h3.2.2.1⟩

theorem map_error_of {α β : Type} {x : Except Fault α} {e : Fault}
    (f : α → β) (h : x = Except.error e) : x.map f = Except.error e := by
  rw [h]
  rfl

/-- C8: the input phase accepts exactly the first stdin line that
parses as an integer ≥ 1: any prefix of non-numeric lines or integers
below 1 is consumed with re-prompts and never surfaces as a failure
(the read still returns `ok`), and whenever the input phase returns —
entering the loop phase — the accepted count is ≥ 1. -/
theorem c8_input_validation :
    (∀ (pre : List String) (s : String) (rest : List String) (w : World)
      (v : Int), (∀ p ∈ pre, validCount p = false) →
      parsePyInt s = some v → 1 ≤ v →
      ∃ w2, readCount (pre ++ s :: rest) w =
        Except.ok (v.toNat, rest, w2)) ∧
    (∀ (lines : List String) (w : World) (n : Nat) (rest : List String)
      (w1 : World), readCount lines w = Except.ok (n, rest, w1) → 1 ≤ n) :=
  ⟨readCount_first_valid,
   fun lines w n rest w1 h =>
     (readCount_world lines w n rest w1 h).2.2.2.2.2.2.2.2⟩

theorem c8_input_validation_witness :
    ∃ w2, readCount (["abc", "0"] ++ "3" :: []) wGood =
      Except.ok (3, [], w2) :=
  c8_input_validation.1 ["abc", "0"] "3" [] wGood 3 (by decide) (by decide)
    (by decide)

/-- C6 (amended): every token mutator fails with `IOError` when its
file is missing and with the JSON decode error (`formatError`) when the
file's text is not valid JSON; however a document that is valid JSON
but not of the documented minimal shape faults with a generic runtime
error instead of a `FormatError` (see the counterexample).  None of
these faults is caught anywhere: a faulting iteration turns the whole
loop, and the whole session, into that very fault. -/
theorem c6_uncaught_faults :
    (∀ (k : MutKind) (w : World), w.fs (pathOfKind k) = FileData.absent →
      runMutatorK k w = Except.error Fault.ioError) ∧
    (∀ (k : MutKind) (w : World) (s : String),
      w.fs (pathOfKind k) = FileData.raw s →
      runMutatorK k w = Except.error Fault.formatError) ∧
    (∀ (total k : Nat) (w : World) (used : List String)
      (recs : List SelRec) (e : Fault),
      runIteration (total - k) total w used = Except.error e →
      runLoopAux total (k + 1) w used recs = Except.error e) ∧
    (∀ (lines : List String) (w : World) (n : Nat) (rest : List String)
      (w1 : World) (e : Fault),
      readCount lines (bannerW w) = Except.ok (n, rest, w1) →
      runLoopAux n n { w1 with printed := w1.printed ++ [""] } [] [] =
        Except.error e →
      runMain lines w = Except.error e) := by
  refine ⟨?_, ?_, ?_, ?_⟩
  · intro k w h
    unfold runMutatorK
    rw [h]
    rfl
  · intro k w s h
    unfold runMutatorK
    rw [h]
    rfl
  · intro total k w used recs e h
    rw [runLoopAux_succ, h]
  · intro lines w n rest w1 e hin hloop
    unfold runMain
    rw [hin, bind_ok]
    exact map_error_of _ hloop

/-- C6 counterexample: a colors file holding the valid JSON document
`3` — valid JSON, but not the documented minimal shape (a mapping) —
makes the colors mutator fail with `AttributeError` (Python faults on
`.keys()` of a non-mapping), not with a `FormatError` as the claim
states. -/
theorem c6_counterexample :
    runMutatorK MutKind.colors wColorsScalarDoc =
      Except.error Fault.attributeError ∧
    Fault.attributeError ≠ Fault.formatError :=
  ⟨rfl, by decide⟩

theorem c6_uncaught_faults_witness :
    runMutatorK MutKind.colors wColorsAbsent = Except.error Fault.ioError ∧
    runMutatorK MutKind.colors wColorsRaw =
      Except.error Fault.formatError ∧
    runLoopAux 1 1 wColorsAbsent [] [] = Except.error Fault.ioError ∧
    runMain ["1"] wColorsAbsent = Except.error Fault.ioError := by
  refine ⟨?_, ?_, ?_, ?_⟩
  · exact c6_uncaught_faults.1 MutKind.colors wColorsAbsent rfl
  · exact c6_uncaught_faults.2.1 MutKind.colors wColorsRaw "not json" rfl
  · exact c6_uncaught_faults.2.2.1 1 0 wColorsAbsent [] [] Fault.ioError rfl
  · exact c6_uncaught_faults.2.2.2 ["1"] wColorsAbsent 1 [] _ Fault.ioError
      rfl rfl

theorem nil_not_mem_leaves_obj {m : List (String × Json)} {x : Json} :
    ¬ (([] : List String), x) ∈ leaves (Json.obj m) := by
  intro hmem
  obtain ⟨k2, p2, v2, heq, _, _⟩ := mem_leaves_obj.mp hmem
  exact absurd heq (by simp)

theorem leaves_dictSet_scalar_iff {sub : List (String × Json)} {s : String}
    {v : Json} (hsub : ∀ sw ∈ sub, scalarB sw.2 = true)
    (hsv : scalarB v = true) {q2 : List String} {x : Json}
    (hq2 : q2 ≠ [s]) :
    ((q2, x) ∈ leaves (Json.obj (dictSet sub s v)) ↔
      (q2, x) ∈ leaves (Json.obj sub)) := by
  cases q2 with
  | nil =>
      constructor
      · intro hmem; exact absurd hmem nil_not_mem_leaves_obj
      · intro hmem; exact absurd hmem nil_not_mem_leaves_obj
  | cons s2 q3 =>
      by_cases hs : s2 = s
      · subst hs
        have hq3 : q3 ≠ [] := by
          intro hh; rw [hh] at hq2; exact hq2 rfl
        constructor
        · intro hm2
          obtain ⟨k3, p3, v3, heq, hm3, hl3⟩ := mem_leaves_obj.mp hm2
          injection heq with h1 h2
          subst h1; subst h2
          exfalso
          rcases mem_dictSet hm3 with hin | ⟨_, rfl⟩
          · rw [leaves_of_scalar (hsub _ hin)] at hl3
            have := List.mem_singleton.mp hl3
            rw [Prod.mk.injEq] at this
            exact hq3 this.1
          · rw [leaves_of_scalar hsv] at hl3
            have := List.mem_singleton.mp hl3
            rw [Prod.mk.injEq] at this
            exact hq3 this.1
        · intro hm2
          obtain ⟨k3, p3, v3, heq, hm3, hl3⟩ := mem_leaves_obj.mp hm2
          injection heq with h1 h2
          subst h1; subst h2
          exfalso
          rw [leaves_of_scalar (hsub _ hm3)] at hl3
          have := List.mem_singleton.mp hl3
          rw [Prod.mk.injEq] at this
          exact hq3 this.1
      · constructor
        · intro hm2
          obtain ⟨k3, p3, v3, heq, hm3, hl3⟩ := mem_leaves_obj.mp hm2
          injection heq with h1 h2
          subst h1; subst h2
          exact mem_leaves_obj.mpr
            ⟨s2, q3, v3, rfl, (mem_dictSet_ne hs).mp hm3, hl3⟩
        · intro hm2
          obtain ⟨k3, p3, v3, heq, hm3, hl3⟩ := mem_leaves_obj.mp hm2
          injection heq with h1 h2
          subst h1; subst h2
          exact mem_leaves_obj.mpr
            ⟨s2, q3, v3, rfl, (mem_dictSet_ne hs).mpr hm3, hl3⟩

theorem atMostOne_top {m : List (String × Json)} {k : String} {v b0 : Json}
    (hnd : (m.map Prod.fst).Nodup) (hb : (k, b0) ∈ m)
    (hsb : scalarB b0 = true) (hsv : scalarB v = true) :
    AtMostOneLeafDiff (Json.obj m) (Json.obj (dictSet m k v)) := by
  refine ⟨[k], ?_⟩
  intro q x hq
  cases q with
  | nil =>
      constructor
      · intro hmem; exact absurd hmem nil_not_mem_leaves_obj
      · intro hmem; exact absurd hmem nil_not_mem_leaves_obj
  | cons k2 q2 =>
      by_cases hk : k2 = k
      · subst hk
        have hq2 : q2 ≠ [] := by
          intro hh; rw [hh] at hq; exact hq rfl
        constructor
        · intro hmem
          obtain ⟨k3, p3, v3, heq, hm3, hl3⟩ := mem_leaves_obj.mp hmem
          injection heq with h1 h2
          subst h1; subst h2
          exfalso
          have hv3 : v3 = b0 := by
            have e1 := pyGet_of_mem_nodup hnd hm3
            have e2 := pyGet_of_mem_nodup hnd hb
            rw [e1] at e2
            injection e2
          subst hv3
          rw [leaves_of_scalar hsb] at hl3
          have := List.mem_singleton.mp hl3
          rw [Prod.mk.injEq] at this
          exact hq2 this.1
        · intro hmem
          obtain ⟨k3, p3, v3, heq, hm3, hl3⟩ := mem_leaves_obj.mp hmem
          injection heq with h1 h2
          subst h1; subst h2
          exfalso
          rcases mem_dictSet hm3 with hin | ⟨_, rfl⟩
          · have hv3 : v3 = b0 := by
              have e1 := pyGet_of_mem_nodup hnd hin
              have e2 := pyGet_of_mem_nodup hnd hb
              rw [e1] at e2
              injection e2
            subst hv3
            rw [leaves_of_scalar hsb] at hl3
            have := List.mem_singleton.mp hl3
            rw [Prod.mk.injEq] at this
            exact hq2 this.1
          · rw [leaves_of_scalar hsv] at hl3
            have := List.mem_singleton.mp hl3
            rw [Prod.mk.injEq] at this
            exact hq2 this.1
      · constructor
        · intro hmem
          obtain ⟨k3, p3, v3, heq, hm3, hl3⟩ := mem_leaves_obj.mp hmem
          injection heq with h1 h2
          subst h1; subst h2
          exact mem_leaves_obj.mpr
            ⟨k2, q2, v3, rfl, (mem_dictSet_ne hk).mpr hm3, hl3⟩
        · intro hmem
          obtain ⟨k3, p3, v3, heq, hm3, hl3⟩ := mem_leaves_obj.mp hmem
          injection heq with h1 h2
          subst h1; subst h2
          exact mem_leaves_obj.mpr
            ⟨k2, q2, v3, rfl, (mem_dictSet_ne hk).mp hm3, hl3⟩

theorem atMostOne_nested {m sub : List (String × Json)} {k s : String}
    {v : Json} (hnd : (m.map Prod.fst).Nodup)
    (hmem : (k, Json.obj sub) ∈ m)
    (hsub : ∀ sw ∈ sub, scalarB sw.2 = true) (hsv : scalarB v = true) :
    AtMostOneLeafDiff (Json.obj m)
      (Json.obj (dictSet m k (Json.obj (dictSet sub s v)))) := by
  refine ⟨[k, s], ?_⟩
  intro q x hq
  cases q with
  | nil =>
      constructor
      · intro hmem2; exact absurd hmem2 nil_not_mem_leaves_obj
      · intro hmem2; exact absurd hmem2 nil_not_mem_leaves_obj
  | cons k2 q2 =>
      by_cases hk : k2 = k
      · subst hk
        have hq2 : q2 ≠ [s] := by
          intro hh; rw [hh] at hq; exact hq rfl
        constructor
        · intro hmem2
          obtain ⟨k3, p3, v3, heq, hm3, hl3⟩ := mem_leaves_obj.mp hmem2
          injection heq with h1 h2
          subst h1; subst h2
          have hv3 : v3 = Json.obj sub := by
            have e1 := pyGet_of_mem_nodup hnd hm3
            have e2 := pyGet_of_mem_nodup hnd hmem
            rw [e1] at e2
            injection e2
          subst hv3
          refine mem_leaves_obj.mpr ⟨k2, q2, Json.obj (dictSet sub s v), rfl,
            (mem_dictSet_self hnd).mpr rfl, ?_⟩
          exact (leaves_dictSet_scalar_iff hsub hsv hq2).mpr hl3
        · intro hmem2
          obtain ⟨k3, p3, v3, heq, hm3, hl3⟩ := mem_leaves_obj.mp hmem2
          injection heq with h1 h2
          subst h1; subst h2
          have hv3 : v3 = Json.obj (dictSet sub s v) :=
            (mem_dictSet_self hnd).mp hm3
          subst hv3
          refine mem_leaves_obj.mpr ⟨k2, q2, Json.obj sub, rfl, hmem, ?_⟩
          exact (leaves_dictSet_scalar_iff hsub hsv hq2).mp hl3
      · constructor
        · intro hmem2
          obtain ⟨k3, p3, v3, heq, hm3, hl3⟩ := mem_leaves_obj.mp hmem2
          injection heq with h1 h2
          subst h1; subst h2
          exact mem_leaves_obj.mpr
            ⟨k2, q2, v3, rfl, (mem_dictSet_ne hk).mpr hm3, hl3⟩
        · intro hmem2
          obtain ⟨k3, p3, v3, heq, hm3, hl3⟩ := mem_leaves_obj.mp hmem2
          injection heq with h1 h2
          subst h1; subst h2
          exact mem_leaves_obj.mpr
            ⟨k2, q2, v3, rfl, (mem_dictSet_ne hk).mp hm3, hl3⟩

theorem modify_spacing_ok_inv {d : Json} {r : RandState}
    {out : Json × RandState} (h : modify_spacing d r = Except.ok out) :
    ∃ m key v, d = Json.obj m ∧ key ∈ m.map Prod.fst ∧
      scalarB v = true ∧ out.1 = Json.obj (dictSet m key v) := by
  cases d with
  | str s => exact Except.noConfusion h
  | int n => exact Except.noConfusion h
  | obj m =>
      unfold modify_spacing at h
      split at h
      · split at h
        · exact Except.noConfusion h
        · split at h
          · exact Except.noConfusion h
          · rename_i x2 a heqm x1 key r1 hc1 x0 base r2 hc2
            injection heqm with hma
            subst hma
            simp only [Except.ok.injEq] at h
            refine ⟨m, key, Json.str (toString base ++ "px"), rfl,
              (pyChoice_ok hc1).1, rfl, ?_⟩
            rw [← h]
      · rename_i hcontra
        exact (hcontra m rfl).elim

theorem modify_colors_ok_inv {d : Json} {r : RandState}
    {out : Json × RandState} (h : modify_colors d r = Except.ok out) :
    ∃ m key, d = Json.obj m ∧
      ((∃ sub s v, pyGet m key = some (Json.obj sub) ∧ scalarB v = true ∧
         out.1 = Json.obj (dictSet m key (Json.obj (dictSet sub s v)))) ∨
       (∃ b v, pyGet m key = some b ∧ scalarB b = true ∧ scalarB v = true ∧
         out.1 = Json.obj (dictSet m key v))) := by
  cases d with
  | str s => exact Except.noConfusion h
  | int n => exact Except.noConfusion h
  | obj m =>
      unfold modify_colors at h
      split at h
      · dsimp only [] at h
        split at h
        · exact Except.noConfusion h
        · split at h
          · split at h
            · exact Except.noConfusion h
            · split at h
              · exact Except.noConfusion h
              · rename_i x4 a heqm x3 key rk hck x2 sub heqget x1 s rs hcs
                  x0 c rc hcc
                injection heqm with hma
                subst hma
                simp only [Except.ok.injEq] at h
                refine ⟨m, key, rfl,
                  Or.inl ⟨sub, s, Json.str c, heqget, rfl, ?_⟩⟩
                rw [← h]
          · split at h
            · exact Except.noConfusion h
            · rename_i x4 a heqm x3 key rk hck x2 bval hnotobj heqget
                x0 c rc hcc
              injection heqm with hma
              subst hma
              simp only [Except.ok.injEq] at h
              have hsb : scalarB bval = true := by
                cases bval with
                | obj mm => exact (hnotobj mm rfl).elim
                | str s2 => rfl
                | int n2 => rfl
              refine ⟨m, key, rfl,
                Or.inr ⟨bval, Json.str c, heqget, hsb, rfl, ?_⟩⟩
              rw [← h]
          · exact Except.noConfusion h
      · rename_i hcontra
        exact (hcontra m rfl).elim

theorem modify_typography_ok_inv {d : Json} {r : RandState}
    {out : Json × RandState} (h : modify_typography d r = Except.ok out) :
    ∃ m key sub prop v, d = Json.obj m ∧
      pyGet m key = some (Json.obj sub) ∧ scalarB v = true ∧
      out.1 = Json.obj (dictSet m key (Json.obj (dictSet sub prop v))) := by
  cases d with
  | str s => exact Except.noConfusion h
  | int n => exact Except.noConfusion h
  | obj m =>
      unfold modify_typography at h
      split at h
      · dsimp only [] at h
        split at h
        · exact Except.noConfusion h
        · split at h
          · exact Except.noConfusion h
          · split at h
            · exact Except.noConfusion h
            · split at h
              · rename_i x3 a heqm x2 key rk hck x1 prop rp hcp vr v r3
                  hvr x0 sub heqget
                injection heqm with hma
                subst hma
                have hscal : scalarB v = true := by
                  by_cases hp1 : prop = "fontSize"
                  · rw [if_pos hp1] at hvr
                    obtain ⟨p, _, hv⟩ := map_ok_inv hvr
                    rw [show v = Json.str p.1 from congrArg Prod.fst hv]
                    rfl
                  · rw [if_neg hp1] at hvr
                    by_cases hp2 : prop = "fontWeight"
                    · rw [if_pos hp2] at hvr
                      obtain ⟨p, _, hv⟩ := map_ok_inv hvr
                      rw [show v = Json.int p.1 from congrArg Prod.fst hv]
                      rfl
                    · rw [if_neg hp2] at hvr
                      obtain ⟨p, _, hv⟩ := map_ok_inv hvr
                      rw [show v = Json.str p.1 from congrArg Prod.fst hv]
                      rfl
                simp only [Except.ok.injEq] at h
                refine ⟨m, key, sub, prop, v, rfl, heqget, hscal, ?_⟩
                rw [← h]
              · exact Except.noConfusion h
              · exact Except.noConfusion h
      · rename_i hcontra
        exact (hcontra m rfl).elim

theorem modify_components_ok_inv {d : Json} {r : RandState}
    {out : Json × RandState} (h : modify_components d r = Except.ok out) :
    ∃ m key sub prop v, d = Json.obj m ∧
      pyGet m key = some (Json.obj sub) ∧ scalarB v = true ∧
      out.1 = Json.obj (dictSet m key (Json.obj (dictSet sub prop v))) := by
  cases d with
  | str s => exact Except.noConfusion h
  | int n => exact Except.noConfusion h
  | obj m =>
      unfold modify_components at h
      split at h
      · split at h
        · exact Except.noConfusion h
        · split at h
          · split at h
            · exact Except.noConfusion h
            · dsimp only [] at h
              split at h
              · split at h
                · exact Except.noConfusion h
                · rename_i x4 a heqm x3 key rk hck x2 sub heqget x1 prop
                    rp hcp hcond x0 base r2 hcb
                  injection heqm with hma
                  subst hma
                  simp only [Except.ok.injEq] at h
                  refine ⟨m, key, sub, prop,
                    Json.str (toString base ++ "px"), rfl, heqget, rfl, ?_⟩
                  rw [← h]
              · split at h
                · rename_i x3 a heqm x2 key rk hck x1 sub heqget x0 prop
                    rp hcp hc1 hc2
                  injection heqm with hma
                  subst hma
                  simp only [Except.ok.injEq] at h
                  refine ⟨m, key, sub, prop,
                    Json.str (shadowStr (pyRandint 0 4 rp).1
                      (pyRandint 1 8 (pyRandint 0 4 rp).2).1
                      (pyRandint 4 24 (pyRandint 1 8 (pyRandint 0 4 rp).2).2).1
                      (pyUniformAlpha (pyRandint 4 24
                        (pyRandint 1 8 (pyRandint 0 4 rp).2).2).2).1),
                    rfl, heqget, rfl, ?_⟩
                  rw [← h]
                · split at h
                  · split at h
                    · exact Except.noConfusion h
                    · rename_i x4 a heqm x3 key rk hck x2 sub heqget x1
                        prop rp hcp hc1 hc2 hc3 x0 base r2 hcb
                      injection heqm with hma
                      subst hma
                      simp only [Except.ok.injEq] at h
                      refine ⟨m, key, sub, prop,
                        Json.str (toString base ++ "px"), rfl, heqget,
                        rfl, ?_⟩
                      rw [← h]
                  · split at h
                    · exact Except.noConfusion h
                    · rename_i x4 a heqm x3 key rk hck x2 sub heqget x1
                        prop rp hcp hc1 hc2 hc3 x0 base r2 hcb
                      injection heqm with hma
                      subst hma
                      simp only [Except.ok.injEq] at h
                      refine ⟨m, key, sub, prop,
                        Json.str (toString base ++ "px"), rfl, heqget,
                        rfl, ?_⟩
                      rw [← h]
          · exact Except.noConfusion h
          · exact Except.noConfusion h
      · rename_i hcontra
        exact (hcontra m rfl).elim

/-- C2 (amended): on any successful run, each token mutator rewrites
only its own fixed file — every other file and the changelog are
untouched — the file again holds a serialized document (hence valid
JSON), and at most one leaf position differs from the prior version:
the selected leaf receives the freshly drawn value, which may coincide
with the old value (so "exactly one leaf value is altered" fails, see
the counterexample) and, for the nested mutators, may be newly
created.  The shape hypotheses record the documented token-file layout:
a mapping with unique keys whose values are scalars or nested scalar
mappings, and a flat scalar mapping for spacing. -/
theorem c2_mutator_single_leaf :
    (∀ (w w2 : World) (old : Json),
      w.fs colorsPath = FileData.jdoc old → TokenShape old →
      runMutatorK MutKind.colors w = Except.ok w2 →
      MutOut w w2 colorsPath old) ∧
    (∀ (w w2 : World) (old : Json),
      w.fs typographyPath = FileData.jdoc old → TokenShape old →
      runMutatorK MutKind.typography w = Except.ok w2 →
      MutOut w w2 typographyPath old) ∧
    (∀ (w w2 : World) (old : Json),
      w.fs spacingPath = FileData.jdoc old → FlatShape old →
      runMutatorK MutKind.spacing w = Except.ok w2 →
      MutOut w w2 spacingPath old) ∧
    (∀ (w w2 : World) (old : Json),
      w.fs componentsPath = FileData.jdoc old → TokenShape old →
      runMutatorK MutKind.components w = Except.ok w2 →
      MutOut w w2 componentsPath old) := by
  refine ⟨?_, ?_, ?_, ?_⟩
  · intro w w2 old hfs hshape hrun
    obtain ⟨_, _, _, _, hchl, _, _, hother, old2, dnew, r2, hold2, hmc,
      hnewfs, _⟩ := runMutatorK_ok_spec hrun
    have heq : FileData.jdoc old = FileData.jdoc old2 := hfs.symm.trans hold2
    injection heq with hoe
    subst hoe
    obtain ⟨m, key, hdm, hbranch⟩ := modify_colors_ok_inv hmc
    subst hdm
    obtain ⟨m2, hm2, hnd, hvals⟩ := hshape
    injection hm2 with hmm
    subst hmm
    refine ⟨fun q hq => hother q hq, hchl, dnew, hnewfs, ?_⟩
    rcases hbranch with ⟨sub, s, v, hget, hsv, hout⟩ |
      ⟨b, v, hget, hsb, hsv, hout⟩
    · have hmem := pyGet_mem hget
      rcases hvals _ hmem with hsc | ⟨sub2, hsub2, hnd2, hsc2⟩
      · exact Bool.noConfusion hsc
      · injection hsub2 with hss
        subst hss
        have hd : dnew = Json.obj (dictSet m key
          (Json.obj (dictSet sub s v))) := hout
        rw [hd]
        exact atMostOne_nested hnd hmem hsc2 hsv
    · have hmem := pyGet_mem hget
      have hd : dnew = Json.obj (dictSet m key v) := hout
      rw [hd]
      exact atMostOne_top hnd hmem hsb hsv
  · intro w w2 old hfs hshape hrun
    obtain ⟨_, _, _, _, hchl, _, _, hother, old2, dnew, r2, hold2, hmc,
      hnewfs, _⟩ := runMutatorK_ok_spec hrun
    have heq : FileData.jdoc old = FileData.jdoc old2 := hfs.symm.trans hold2
    injection heq with hoe
    subst hoe
    obtain ⟨m, key, sub, prop, v, hdm, hget, hsv, hout⟩ :=
      modify_typography_ok_inv hmc
    subst hdm
    obtain ⟨m2, hm2, hnd, hvals⟩ := hshape
    injection hm2 with hmm
    subst hmm
    refine ⟨fun q hq => hother q hq, hchl, dnew, hnewfs, ?_⟩
    have hmem := pyGet_mem hget
    rcases hvals _ hmem with hsc | ⟨sub2, hsub2, hnd2, hsc2⟩
    · exact Bool.noConfusion hsc
    · injection hsub2 with hss
      subst hss
      have hd : dnew = Json.obj (dictSet m key
        (Json.obj (dictSet sub prop v))) := hout
      rw [hd]
      exact atMostOne_nested hnd hmem hsc2 hsv
  · intro w w2 old hfs hshape hrun
    obtain ⟨_, _, _, _, hchl, _, _, hother, old2, dnew, r2, hold2, hmc,
      hnewfs, _⟩ := runMutatorK_ok_spec hrun
    have heq : FileData.jdoc old = FileData.jdoc old2 := hfs.symm.trans hold2
    injection heq with hoe
    subst hoe
    obtain ⟨m, key, v, hdm, hkeys, hsv, hout⟩ := modify_spacing_ok_inv hmc
    subst hdm
    obtain ⟨m2, hm2, hnd, hvals⟩ := hshape
    injection hm2 with hmm
    subst hmm
    refine ⟨fun q hq => hother q hq, hchl, dnew, hnewfs, ?_⟩
    obtain ⟨b, hb⟩ := pyGet_isSome_of_mem_keys hkeys
    have hmem := pyGet_mem hb
    have hd : dnew = Json.obj (dictSet m key v) := hout
    rw [hd]
    exact atMostOne_top hnd hmem (hvals _ hmem) hsv
  · intro w w2 old hfs hshape hrun
    obtain ⟨_, _, _, _, hchl, _, _, hother, old2, dnew, r2, hold2, hmc,
      hnewfs, _⟩ := runMutatorK_ok_spec hrun
    have heq : FileData.jdoc old = FileData.jdoc old2 := hfs.symm.trans hold2
    injection heq with hoe
    subst hoe
    obtain ⟨m, key, sub, prop, v, hdm, hget, hsv, hout⟩ :=
      modify_components_ok_inv hmc
    subst hdm
    obtain ⟨m2, hm2, hnd, hvals⟩ := hshape
    injection hm2 with hmm
    subst hmm
    refine ⟨fun q hq => hother q hq, hchl, dnew, hnewfs, ?_⟩
    have hmem := pyGet_mem hget
    rcases hvals _ hmem with hsc | ⟨sub2, hsub2, hnd2, hsc2⟩
    · exact Bool.noConfusion hsc
    · injection hsub2 with hss
      subst hss
      have hd : dnew = Json.obj (dictSet m key
        (Json.obj (dictSet sub prop v))) := hout
      rw [hd]
      exact atMostOne_nested hnd hmem hsc2 hsv

/-- C2 counterexample: running the spacing mutator on `{"sm": "4px"}`
with a random source that selects key "sm" and base 4 rewrites the file
with the byte-identical document, so zero leaf values are altered
relative to the prior version — refuting "exactly one leaf value is
altered" on this run. -/
theorem c2_counterexample :
    modify_spacing docSpace (streamOf [0, 1]) =
      Except.ok (docSpace, (streamOf [0, 1]).next.next) ∧
    ¬ AlteredOne docSpace docSpace := by
  constructor
  · rfl
  · intro hcontra
    obtain ⟨pw, hpw, pw2, hpw2, hpath, hval⟩ := hcontra
    have hl : leaves docSpace = [(["sm"], Json.str "4px")] := by
      show leaves (Json.obj [("sm", Json.str "4px")]) = _
      rw [leaves_obj, leavesList_cons, leavesList_nil, leaves_str]
      rfl
    rw [hl, List.mem_singleton] at hpw hpw2
    subst hpw
    subst hpw2
    exact hval rfl

theorem c2_mutator_single_leaf_witness :
    (∃ w2, runMutatorK MutKind.spacing wGood = Except.ok w2 ∧
      MutOut wGood w2 spacingPath docSpace) ∧
    (∃ w2, runMutatorK MutKind.typography wGood = Except.ok w2 ∧
      MutOut wGood w2 typographyPath docTypo) := by
  constructor
  · obtain ⟨w2, h⟩ : ∃ w2, runMutatorK MutKind.spacing wGood =
        Except.ok w2 := ⟨_, rfl⟩
    refine ⟨w2, h, ?_⟩
    refine c2_mutator_single_leaf.2.2.1 wGood w2 docSpace rfl ?_ h
    exact ⟨[("sm", Json.str "4px")], rfl, by decide, by decide⟩
  · obtain ⟨w2, h⟩ : ∃ w2, runMutatorK MutKind.typography wGood =
        Except.ok w2 := ⟨_, rfl⟩
    refine ⟨w2, h, ?_⟩
    refine c2_mutator_single_leaf.2.1 wGood w2 docTypo rfl ?_ h
    refine ⟨[("body", Json.obj [("fontSize", Json.str "1rem")])], rfl,
      by decide, ?_⟩
    intro kv hkv
    refine Or.inr ⟨[("fontSize", Json.str "1rem")], ?_, by decide, by decide⟩
    have := List.mem_singleton.mp hkv
    rw [this]

theorem pyChoice_cons_ne_error {α : Type} (x : α) (t : List α)
    (r : RandState) (e : Fault) : pyChoice (x :: t) r ≠ Except.error e := by
  simp [pyChoice]

theorem pyGet_scalar_of_all_scalar {m : List (String × Json)} {key : String}
    (hkey : key ∈ m.map Prod.fst)
    (hscal : ∀ kv ∈ m, scalarB kv.2 = true) :
    ∃ val, pyGet m key = some val ∧ scalarB val = true := by
  obtain ⟨v, hv⟩ := pyGet_isSome_of_mem_keys hkey
  exact ⟨v, hv, hscal _ (pyGet_mem hv)⟩

theorem modify_components_scalar_doc {m : List (String × Json)}
    {r : RandState} (hne : m ≠ [])
    (hscal : ∀ kv ∈ m, scalarB kv.2 = true) :
    modify_components (Json.obj m) r = Except.error Fault.attributeError := by
  cases m with
  | nil => exact absurd rfl hne
  | cons kv rest =>
      unfold modify_components
      split
      · rename_i x a heq
        injection heq with hmeq
        subst hmeq
        split
        · rename_i e heq1
          rw [List.map_cons] at heq1
          exact absurd heq1 (pyChoice_cons_ne_error _ _ _ _)
        · rename_i component r1 heq1
          have hkey : component ∈ (kv :: rest).map Prod.fst :=
            (pyChoice_ok heq1).1
          obtain ⟨val, hget, hvs⟩ := pyGet_scalar_of_all_scalar hkey hscal
          rw [hget]
          cases val with
          | str s => rfl
          | int n => rfl
          | obj m2 => simp [scalarB] at hvs
      · rename_i x hcontra
        exact absurd rfl (hcontra (kv :: rest))

theorem modify_typography_scalar_doc {m : List (String × Json)}
    {r : RandState} (hne : m ≠ [])
    (hscal : ∀ kv ∈ m, scalarB kv.2 = true) :
    modify_typography (Json.obj m) r = Except.error Fault.typeError := by
  cases m with
  | nil => exact absurd rfl hne
  | cons kv rest =>
      unfold modify_typography
      split
      · rename_i x a heq
        injection heq with hmeq
        subst hmeq
        split
        · rename_i e heq1
          rw [List.map_cons] at heq1
          exact absurd heq1 (pyChoice_cons_ne_error _ _ _ _)
        · rename_i key r1 heq1
          have hkey : key ∈ (kv :: rest).map Prod.fst :=
            (pyChoice_ok heq1).1
          obtain ⟨val, hget, hvs⟩ := pyGet_scalar_of_all_scalar hkey hscal
          split
          · rename_i e heq2
            exact absurd heq2 (pyChoice_cons_ne_error _ _ _ _)
          · rename_i prop r2 heq2
            have hprop : prop ∈ ["fontSize", "fontWeight", "lineHeight"] :=
              (pyChoice_ok heq2).1
            simp only [List.mem_cons, List.mem_singleton,
              List.not_mem_nil, or_false] at hprop
            dsimp only []
            obtain hp | hp | hp := hprop
            · subst hp
              rw [if_pos rfl]
              split
              · rename_i e heq3
                simp [fontSizes, pyChoice, Except.map] at heq3
              · rename_i v r3 heq3
                rw [hget]
                cases val with
                | str s => rfl
                | int n => rfl
                | obj m2 => simp [scalarB] at hvs
            · subst hp
              rw [if_neg (by decide), if_pos rfl]
              split
              · rename_i e heq3
                simp [fontWeights, pyChoice, Except.map] at heq3
              · rename_i v r3 heq3
                rw [hget]
                cases val with
                | str s => rfl
                | int n => rfl
                | obj m2 => simp [scalarB] at hvs
            · subst hp
              rw [if_neg (by decide), if_neg (by decide)]
              split
              · rename_i e heq3
                simp [lineHeights, pyChoice, Except.map] at heq3
              · rename_i v r3 heq3
                rw [hget]
                cases val with
                | str s => rfl
                | int n => rfl
                | obj m2 => simp [scalarB] at hvs
      · rename_i x hcontra
        exact absurd rfl (hcontra (kv :: rest))

/-- C10: each mutator terminates normally only under a shape precondition
stronger than valid JSON. (a) On the empty mapping every mutator faults with
an IndexError (random.choice of an empty key list). (b) On a non-mapping
document every mutator faults with an AttributeError (data.keys()). (c) On a
non-empty mapping whose values are all scalars, the typography mutator
faults with a TypeError (item assignment into a scalar) and (d) the
components mutator faults with an AttributeError (keys() of a scalar).
(e) A normal (ok) run of the typography or components mutator implies the
document is a mapping with a nested-mapping entry, and (f) a normal run of
any of the four mutators implies the document is a non-empty mapping. -/
theorem c10_mutator_shape_preconditions :
    (∀ r : RandState,
      modify_colors (Json.obj []) r = Except.error Fault.indexError ∧
      modify_typography (Json.obj []) r = Except.error Fault.indexError ∧
      modify_spacing (Json.obj []) r = Except.error Fault.indexError ∧
      modify_components (Json.obj []) r = Except.error Fault.indexError) ∧
    (∀ (j : Json) (r : RandState), (∀ m, j ≠ Json.obj m) →
      modify_colors j r = Except.error Fault.attributeError ∧
      modify_typography j r = Except.error Fault.attributeError ∧
      modify_spacing j r = Except.error Fault.attributeError ∧
      modify_components j r = Except.error Fault.attributeError) ∧
    (∀ (m : List (String × Json)) (r : RandState), m ≠ [] →
      (∀ kv ∈ m, scalarB kv.2 = true) →
      modify_typography (Json.obj m) r = Except.error Fault.typeError) ∧
    (∀ (m : List (String × Json)) (r : RandState), m ≠ [] →
      (∀ kv ∈ m, scalarB kv.2 = true) →
      modify_components (Json.obj m) r = Except.error Fault.attributeError) ∧
    (∀ (d : Json) (r : RandState) (out : Json × RandState),
      modify_typography d r = Except.ok out ∨
        modify_components d r = Except.ok out →
      ∃ m key sub, d = Json.obj m ∧ (key, Json.obj sub) ∈ m) ∧
    (∀ (d : Json) (r : RandState) (out : Json × RandState),
      modify_colors d r = Except.ok out ∨
        modify_typography d r = Except.ok out ∨
        modify_spacing d r = Except.ok out ∨
        modify_components d r = Except.ok out →
      ∃ m, d = Json.obj m ∧ m ≠ []) := by
  refine ⟨fun r => ⟨rfl, rfl, rfl, rfl⟩, ?_, ?_, ?_, ?_, ?_⟩
  · intro j r hj
    cases j with
    | obj m => exact absurd rfl (hj m)
    | str s => exact ⟨rfl, rfl, rfl, rfl⟩
    | int n => exact ⟨rfl, rfl, rfl, rfl⟩
  · intro m r hne hscal
    exact modify_typography_scalar_doc hne hscal
  · intro m r hne hscal
    exact modify_components_scalar_doc hne hscal
  · intro d r out h
    rcases h with h | h
    · obtain ⟨m, key, sub, prop, v, hd, hget, hv, hout⟩ :=
        modify_typography_ok_inv h
      exact ⟨m, key, sub, hd, pyGet_mem hget⟩
    · obtain ⟨m, key, sub, prop, v, hd, hget, hv, hout⟩ :=
        modify_components_ok_inv h
      exact ⟨m, key, sub, hd, pyGet_mem hget⟩
  · intro d r out h
    rcases h with h | h | h | h
    · obtain ⟨m, key, hd, hrest⟩ := modify_colors_ok_inv h
      refine ⟨m, hd, ?_⟩
      rcases hrest with ⟨sub, s, v, hget, _⟩ | ⟨b, v, hget, _⟩ <;>
        exact List.ne_nil_of_mem (pyGet_mem hget)
    · obtain ⟨m, key, sub, prop, v, hd, hget, _, _⟩ :=
        modify_typography_ok_inv h
      exact ⟨m, hd, List.ne_nil_of_mem (pyGet_mem hget)⟩
    · obtain ⟨m, key, v, hd, hkey, _, _⟩ := modify_spacing_ok_inv h
      refine ⟨m, hd, ?_⟩
      intro hmnil
      subst hmnil
      simp at hkey
    · obtain ⟨m, key, sub, prop, v, hd, hget, _, _⟩ :=
        modify_components_ok_inv h
      exact ⟨m, hd, List.ne_nil_of_mem (pyGet_mem hget)⟩

theorem c10_mutator_shape_preconditions_witness :
    modify_typography (Json.obj [("sm", Json.str "4px")]) (streamOf [0, 0]) =
      Except.error Fault.typeError ∧
    modify_components (Json.obj [("sm", Json.str "4px")]) (streamOf [0]) =
      Except.error Fault.attributeError ∧
    modify_spacing (Json.int 3) (streamOf [0]) =
      Except.error Fault.attributeError := by
  refine ⟨?_, ?_, ?_⟩
  · exact c10_mutator_shape_preconditions.2.2.1 _ _
      (List.cons_ne_nil _ _) (by decide)
  · exact c10_mutator_shape_preconditions.2.2.2.1 _ _
      (List.cons_ne_nil _ _) (by decide)
  · exact (c10_mutator_shape_preconditions.2.1 (Json.int 3) _
      (fun m h => Json.noConfusion h)).2.2.1
